import Mathlib

/-!
# Nonlinear forms and matrix-free bilinear forms of MFEM

A shallow embedding of `fem/nonlinearform.cpp` and `fem/pbilinearPAform.cpp`.

Conventions of the embedding.

* A `Vector` is a list of values of a type `α` carrying `0` and `+` (the C++
  code uses `double`; no law of arithmetic is assumed unless a statement says so).
* An `Array<int>` of DOF indices is a list of naturals: the sign-encoded negative
  indices of MFEM are not used by the statements below.
* The finite element and the element transformation handed to an integrator are
  determined by the element number, so an integrator takes the element number.
* Classes that the two files only use (`Vector`, `Array`, `SparseMatrix`,
  `ConstrainedOperator`, the kernel helpers) are modelled from the specification
  and marked as such. Indices are expected in range, as the C++ code expects:
  in the model an out-of-range read gives 0 and an out-of-range write does nothing.
-/

namespace mfem

/-! ## Collaborators -/

/-- Modelled from the spec: `Vector::GetSubVector` of the `Vector` class, which is
defined outside the embedded files. It gathers the entries of the global vector at the
given global indices. -/
def GetSubVector {α : Type} [Zero α] (x : List α) (dofs : List Nat) : List α :=
  dofs.map (fun d => x.getD d 0)

/-- Modelled from the spec: `Vector::AddElementVector` of the `Vector` class, which
is defined outside the embedded files. For each local index, in order, it adds the local
value into the global vector at the mapped global index. -/
def AddElementVector {α : Type} [Zero α] [Add α] : List α → List Nat → List α → List α
  | y, [], _ => y
  | y, d :: ds, el => AddElementVector (y.set d (y.getD d 0 + el.headD 0)) ds el.tail

/-- The part of `FiniteElementSpace` used by the forms: `GetNE`, `GetVSize`,
`GetElementVDofs`, `GetEssentialVDofs` and `GetTrueVSize`. -/
structure FiniteElementSpace where
  /-- Number of mesh elements. -/
  GetNE : Nat
  /-- Number of vector DOFs. -/
  GetVSize : Nat
  /-- DOF list of an element. -/
  GetElementVDofs : Nat → List Nat
  /-- Marker array of the essential vector DOFs for a boundary-attribute marker. -/
  GetEssentialVDofs : List Int → List Int
  /-- Number of true vector DOFs. -/
  GetTrueVSize : Nat

/-- Modelled from the spec: the sparse accumulation target (`SparseMatrix` is defined
outside the embedded files). An entry that was never written is zero. -/
structure SparseMatrix (α : Type) where
  /-- Number of rows. -/
  height : Nat
  /-- Number of columns. -/
  width : Nat
  /-- Value stored at a position. -/
  entry : Nat → Nat → α
  /-- Whether `Finalize` has been applied. -/
  finalized : Bool

/-- A domain integrator of a nonlinear form: `AssembleElementVector` and
`AssembleElementGrad`, as functions of the element number and the local input. -/
structure NonlinearFormIntegrator (α : Type) where
  /-- Local residual of an element. -/
  AssembleElementVector : Nat → List α → List α
  /-- Local Jacobian of an element, as a dense matrix. -/
  AssembleElementGrad : Nat → List α → Nat → Nat → α

/-- State of a `NonlinearForm`: its space, its domain integrators, the essential
DOF list and the gradient matrix (`NULL` until the first `GetGradient`). -/
structure NonlinearForm (α : Type) where
  /-- The finite element space. -/
  fes : FiniteElementSpace
  /-- Registered domain integrators. -/
  dfi : List (NonlinearFormIntegrator α)
  /-- Essential DOF list. -/
  ess_vdofs : List Nat
  /-- Gradient matrix. -/
  Grad : Option (SparseMatrix α)

/-! ## `NonlinearForm::Mult` -/

/-- The element loop of `NonlinearForm::Mult` (lines 81-93): for every element,
gather the local input and add the element vector of every integrator. -/
def NonlinearForm.MultAssemble {α : Type} [Zero α] [Add α] (F : NonlinearForm α)
    (x y : List α) : List α :=
  if F.dfi.length ≠ 0 then
    (List.range F.fes.GetNE).foldl
      (fun y i =>
        let vdofs := F.fes.GetElementVDofs i
        let el_x := GetSubVector x vdofs
        F.dfi.foldl (fun y k => AddElementVector y vdofs (k.AssembleElementVector i el_x)) y)
      y
  else y

/-- The function `NonlinearForm::Mult`: `y = 0.0`, the element loop, then the
loop that zeroes the essential entries (lines 95-98). -/
def NonlinearForm.Mult {α : Type} [Zero α] [Add α] (F : NonlinearForm α)
    (x y : List α) : List α :=
  F.ess_vdofs.foldl (fun y d => y.set d 0)
    (F.MultAssemble x (List.replicate y.length 0))

/-- Element vectors that `Mult` adds at the global index `g`, in the order of
the loops: elements, then integrators, then local positions. -/
def NonlinearForm.contributions {α : Type} [Zero α] (F : NonlinearForm α)
    (x : List α) (g : Nat) : List α :=
  (List.range F.fes.GetNE).flatMap (fun i =>
    F.dfi.flatMap (fun k =>
      (((F.fes.GetElementVDofs i).zip
          (k.AssembleElementVector i (GetSubVector x (F.fes.GetElementVDofs i)))).filter
        (fun p => p.1 = g)).map Prod.snd))

/-! ## `NonlinearForm::GetGradient` -/

/-- Modelled from the spec: `new SparseMatrix(h, w)`, a freshly allocated matrix
without entries, not yet finalized. -/
def SparseMatrix.new {α : Type} [Zero α] (h w : Nat) : SparseMatrix α :=
  ⟨h, w, fun _ _ => 0, false⟩

/-- Modelled from the spec: the assignment `*Grad = 0.0`, which zeroes a matrix in
place and keeps its size and its finalized state. -/
def SparseMatrix.setZero {α : Type} [Zero α] (M : SparseMatrix α) : SparseMatrix α :=
  { M with entry := fun _ _ => 0 }

/-- Adds a value at one position. -/
def SparseMatrix.AddEntry {α : Type} [Add α] (M : SparseMatrix α) (i j : Nat) (v : α) :
    SparseMatrix α :=
  { M with entry := fun r c => if r = i ∧ c = j then M.entry r c + v else M.entry r c }

/-- Modelled from the spec: `SparseMatrix::AddSubMatrix(rows, cols, elmat, skip_zeros)`
adds each local entry at the mapped position; with `skip_zeros = 0` every entry is
added. -/
def SparseMatrix.AddSubMatrix {α : Type} [Add α] (M : SparseMatrix α)
    (rows cols : List Nat) (elmat : Nat → Nat → α) (_skip_zeros : Int) : SparseMatrix α :=
  (List.range rows.length).foldl
    (fun M i => (List.range cols.length).foldl
      (fun M j => M.AddEntry (rows.getD i 0) (cols.getD j 0) (elmat i j)) M) M

/-- Modelled from the spec: `SparseMatrix::EliminateRowCol(rc)` zeroes row `rc` and
column `rc` and leaves a unit entry on the diagonal. -/
def SparseMatrix.EliminateRowCol {α : Type} [Zero α] [One α] (M : SparseMatrix α)
    (rc : Nat) : SparseMatrix α :=
  { M with entry := fun r c =>
      if r = rc ∨ c = rc then (if r = rc ∧ c = rc then 1 else 0) else M.entry r c }

/-- Modelled from the spec: `SparseMatrix::EliminateRow(row)` zeroes a row. -/
def SparseMatrix.EliminateRow {α : Type} [Zero α] (M : SparseMatrix α)
    (row : Nat) : SparseMatrix α :=
  { M with entry := fun r c => if r = row then 0 else M.entry r c }

/-- Modelled from the spec: `SparseMatrix::EliminateCol(col)` zeroes a column. -/
def SparseMatrix.EliminateCol {α : Type} [Zero α] (M : SparseMatrix α)
    (col : Nat) : SparseMatrix α :=
  { M with entry := fun r c => if c = col then 0 else M.entry r c }

/-- Modelled from the spec: `SparseMatrix::Finalize(skip_zeros)` compresses the
matrix; with `skip_zeros = 0` no entry is dropped. -/
def SparseMatrix.Finalize {α : Type} (M : SparseMatrix α) (_skip_zeros : Int) :
    SparseMatrix α :=
  { M with finalized := true }

/-- An operation that rewrites entries only, as a function of the entries. -/
def SparseMatrix.EntryOnly {α : Type} (T : SparseMatrix α → SparseMatrix α) : Prop :=
  ∃ φ : (Nat → Nat → α) → Nat → Nat → α, ∀ M, T M = { M with entry := φ M.entry }

/-- Lines 111-118 of `GetGradient`: allocate the matrix on the first call, zero it
in place on later calls. -/
def NonlinearForm.GradInit {α : Type} [Zero α] (F : NonlinearForm α) : SparseMatrix α :=
  match F.Grad with
  | none => SparseMatrix.new F.fes.GetVSize F.fes.GetVSize
  | some G => G.setZero

/-- Lines 120-133 of `GetGradient`: for every element, add the element Jacobian of
every domain integrator. -/
def NonlinearForm.GradAssemble {α : Type} [Zero α] [Add α] (F : NonlinearForm α)
    (x : List α) (G : SparseMatrix α) : SparseMatrix α :=
  if F.dfi.length ≠ 0 then
    (List.range F.fes.GetNE).foldl
      (fun G i =>
        let vdofs := F.fes.GetElementVDofs i
        let el_x := GetSubVector x vdofs
        F.dfi.foldl
          (fun G k => G.AddSubMatrix vdofs vdofs (k.AssembleElementGrad i el_x) 0) G)
      G
  else G

/-- Lines 135-138 of `GetGradient`: eliminate every essential DOF. -/
def NonlinearForm.GradEliminate {α : Type} [Zero α] [One α] (F : NonlinearForm α)
    (G : SparseMatrix α) : SparseMatrix α :=
  F.ess_vdofs.foldl (fun G d => G.EliminateRowCol d) G

/-- The operations that `NonlinearForm::GetGradient` applies to its matrix, on an
arbitrary representation `M` of the matrix. -/
structure SparseOps (α M : Type) where
  /-- The allocation `new SparseMatrix(n)`. -/
  new : Nat → M
  /-- The assignment `*Grad = 0.0`. -/
  setZero : M → M
  /-- The call `AddSubMatrix(rows, cols, elmat, skip_zeros)`. -/
  AddSubMatrix : M → List Nat → List Nat → (Nat → Nat → α) → Int → M
  /-- The call `EliminateRowCol(rc)`. -/
  EliminateRowCol : M → Nat → M
  /-- The query `Finalized()`. -/
  Finalized : M → Bool
  /-- The call `Finalize(skip_zeros)`. -/
  Finalize : M → Int → M

/-- The body of `NonlinearForm::GetGradient` (lines 104-145), statement by statement,
on an arbitrary representation of the matrix: `Grad` is the member before the call
(`none` for `NULL`), the result is the matrix it holds at the end. -/
def NonlinearForm.GetGradientOn {α M : Type} [Zero α] (ops : SparseOps α M)
    (F : NonlinearForm α) (Grad : Option M) (x : List α) : M :=
  let skip_zeros : Int := 0
  let G := match Grad with
    | none => ops.new F.fes.GetVSize
    | some G => ops.setZero G
  let G := if F.dfi.length ≠ 0 then
      (List.range F.fes.GetNE).foldl
        (fun G i =>
          let vdofs := F.fes.GetElementVDofs i
          let el_x := GetSubVector x vdofs
          F.dfi.foldl
            (fun G k =>
              ops.AddSubMatrix G vdofs vdofs (k.AssembleElementGrad i el_x) skip_zeros) G)
        G
    else G
  let G := F.ess_vdofs.foldl (fun G d => ops.EliminateRowCol G d) G
  if !ops.Finalized G then ops.Finalize G skip_zeros else G

/-- The operations of the modelled `SparseMatrix`. -/
def SparseMatrix.ops (α : Type) [Zero α] [One α] [Add α] : SparseOps α (SparseMatrix α) where
  new := fun n => SparseMatrix.new n n
  setZero := SparseMatrix.setZero
  AddSubMatrix := SparseMatrix.AddSubMatrix
  EliminateRowCol := SparseMatrix.EliminateRowCol
  Finalized := fun M => M.finalized
  Finalize := SparseMatrix.Finalize

/-- The function `NonlinearForm::GetGradient`: its body on the modelled
`SparseMatrix`; returns the gradient matrix together with the form, whose `Grad` now
holds that matrix. -/
def NonlinearForm.GetGradient {α : Type} [Zero α] [One α] [Add α] (F : NonlinearForm α)
    (x : List α) : SparseMatrix α × NonlinearForm α :=
  let G := F.GetGradientOn (SparseMatrix.ops α) F.Grad x
  (G, { F with Grad := some G })

/-! ## `NonlinearForm::SetEssentialBC` -/

/-- Modelled from the spec: `Array<int>::SetSize(nsize)` of the `Array` class, which
is defined outside the embedded files. The leading entries are kept and the new ones are
not initialised (`junk` stands for their content). -/
def ArraySetSize (a : List Nat) (nsize : Nat) (junk : Nat) : List Nat :=
  a.take nsize ++ List.replicate (nsize - a.length) junk

/-- The counting loop of `SetEssentialBC` (lines 26-31). -/
def SetEssentialBC.count (vsize : Nat) (vdof_marker : List Int) : Nat :=
  (List.range vsize).foldl (fun nv i => if vdof_marker.getD i 0 ≠ 0 then nv + 1 else nv) 0

/-- The compaction loop of `SetEssentialBC` (lines 35-39), on the pair of the
array and the write position `j`. -/
def SetEssentialBC.fill (vsize : Nat) (vdof_marker : List Int) (ess : List Nat) :
    List Nat × Nat :=
  (List.range vsize).foldl
    (fun st i => if vdof_marker.getD i 0 ≠ 0 then (st.1.set st.2 i, st.2 + 1) else st)
    (ess, 0)

/-- The function `NonlinearForm::SetEssentialBC`: returns the form with its new
essential DOF list and the right-hand side, zeroed at the essential DOFs when one is
given. -/
def NonlinearForm.SetEssentialBC {α : Type} [Zero α] (F : NonlinearForm α)
    (bdr_attr_is_ess : List Int) (rhs : Option (List α)) (junk : Nat) :
    NonlinearForm α × Option (List α) :=
  let vsize := F.fes.GetVSize
  let vdof_marker := F.fes.GetEssentialVDofs bdr_attr_is_ess
  let nv := SetEssentialBC.count vsize vdof_marker
  let ess := (SetEssentialBC.fill vsize vdof_marker (ArraySetSize F.ess_vdofs nv junk)).1
  ({ F with ess_vdofs := ess },
    rhs.map (fun r => (List.range nv).foldl (fun r i => r.set (ess.getD i 0) 0) r))

/-! ## `ParPABilinearForm` -/

/-- An abstract `Operator`: its sizes and its two applications. -/
structure Operator (α : Type) where
  /-- Number of rows. -/
  Height : Nat
  /-- Number of columns. -/
  Width : Nat
  /-- Application of the operator. -/
  Mult : List α → List α
  /-- Application of the transposed operator. -/
  MultTranspose : List α → List α

/-- A matrix-free integrator: `MultAdd` and `MultTransposeAdd` take the local
input and the local output buffer and return the updated buffer. -/
structure BilinearPAFormIntegrator (α : Type) where
  /-- Adds the action of the local operator to the buffer. -/
  MultAdd : List α → List α → List α
  /-- Adds the action of the transposed local operator to the buffer. -/
  MultTransposeAdd : List α → List α → List α

/-- The conversions of `kFiniteElementSpace` between global and element-local
vectors. -/
structure kFiniteElementSpace (α : Type) where
  /-- Gather of a global vector into the local layout. -/
  GlobalToLocal : List α → List α
  /-- Scatter of a local vector into the global layout. -/
  LocalToGlobal : List α → List α

/-- State of a `ParPABilinearForm`: the prolongation and restriction of the trial
space (`NULL` when absent), the registered integrators, the converter `kfes` and the
size of the buffer `localY`. -/
structure ParPABilinearForm (α : Type) where
  /-- Result of `trialFes->GetProlongationMatrix()`. -/
  GetProlongationMatrix : Option (Operator α)
  /-- Result of `trialFes->GetRestrictionMatrix()`. -/
  GetRestrictionMatrix : Option (Operator α)
  /-- Registered integrators. -/
  integrators : List (BilinearPAFormIntegrator α)
  /-- Converter between global and local vectors. -/
  kfes : kFiniteElementSpace α
  /-- Size of `localY`. -/
  localYSize : Nat

/-- The handle `A` made by `FormLinearSystem`: a `ConstrainedOperator` over either
the form itself or a new `RAPOperator`, with its constraint list. -/
structure ConstrainedOperator where
  /-- Whether the wrapped operator is a new `RAPOperator` (`own_A`). -/
  own_A : Bool
  /-- The essential true DOFs. -/
  constraint_list : List Nat
deriving DecidableEq

/-- Modelled from the spec: `kVectorGetSubvector(N, v0, v1, v2)` of
`linalg/kernels/vector.hpp`, which is defined outside the embedded files. It extracts
`v0[i] = v1[v2[i]]` for `i < N`. -/
def kVectorGetSubvector {α : Type} [Zero α] (N : Nat) (v0 v1 : List α) (v2 : List Nat) :
    List α :=
  (List.range N).foldl (fun v0 i => v0.set i (v1.getD (v2.getD i 0) 0)) v0

/-- Modelled from the spec: `kVectorSetSubvector(N, v0, v1, v2)` of
`linalg/kernels/vector.hpp`, which is defined outside the embedded files. It restores
`v0[v2[i]] = v1[i]` for `i < N`. -/
def kVectorSetSubvector {α : Type} [Zero α] (N : Nat) (v0 v1 : List α) (v2 : List Nat) :
    List α :=
  (List.range N).foldl (fun v0 i => v0.set (v2.getD i 0) (v1.getD i 0)) v0

/-- Modelled from the spec: `ConstrainedOperator::EliminateRHS(x, b)`, which is defined
outside the embedded files. For the essential set it zeroes the corresponding entries
of the right-hand side. -/
def ConstrainedOperator.EliminateRHS {α : Type} [Zero α] (A : ConstrainedOperator)
    (_x b : List α) : List α :=
  A.constraint_list.foldl (fun b d => b.set d 0) b

/-- Lines 147-162 of `FormLinearSystem`: the projection of `x` and `b` to the true
DOFs. With a prolongation `P` it is `X = R x`, `B = P^T b` (a missing `R` is a null
dereference, `none`); without, `X = x` and `B = b`. -/
def ParPABilinearForm.Project {α : Type} (form : ParPABilinearForm α) (x b : List α) :
    Option (List α × List α) :=
  match form.GetProlongationMatrix with
  | some P =>
    match form.GetRestrictionMatrix with
    | some R => some (R.Mult x, P.MultTranspose b)
    | none => none
  | none => some (x, b)

/-- Lines 166-177 of `FormLinearSystem`: extract the essential entries of `X`,
zero `X`, restore the extracted entries. -/
def ParPABilinearForm.ResetX {α : Type} [Zero α] (ess_tdof_list : List Nat) (X : List α) :
    List α :=
  let csz := ess_tdof_list.length
  let subvec := kVectorGetSubvector csz (List.replicate csz 0) X ess_tdof_list
  kVectorSetSubvector csz (List.replicate X.length 0) subvec ess_tdof_list

/-- The function `ParPABilinearForm::FormLinearSystem`: returns the operator handle
`A` and the vectors `X` and `B`. -/
def ParPABilinearForm.FormLinearSystem {α : Type} [Zero α] (form : ParPABilinearForm α)
    (ess_tdof_list : List Nat) (x b : List α) (copy_interior : Int) :
    Option (ConstrainedOperator × List α × List α) :=
  let A : ConstrainedOperator := ⟨form.GetProlongationMatrix.isSome, ess_tdof_list⟩
  match form.Project x b with
  | none => none
  | some (X, B) =>
    let X := if copy_interior = 0 ∧ ess_tdof_list.length > 0 then
        ParPABilinearForm.ResetX ess_tdof_list X else X
    some (A, X, A.EliminateRHS X B)

/-- The function `ParPABilinearForm::RecoverFEMSolution`: returns the new `x`. -/
def ParPABilinearForm.RecoverFEMSolution {α : Type} (form : ParPABilinearForm α)
    (X _b : List α) : List α :=
  match form.GetProlongationMatrix with
  | some P => P.Mult X
  | none => X

/-- The C `assert`: it fails when its condition is false, unless the file is
compiled with `NDEBUG`, which removes it. -/
def cassert (ndebug cond : Bool) : Option Unit :=
  if ndebug || cond then some () else none

/-- The function `ParPABilinearForm::Mult`: returns `y`, or `none` when an
assertion fails. -/
def ParPABilinearForm.Mult {α : Type} [Zero α] (ndebug : Bool)
    (form : ParPABilinearForm α) (x : List α) : Option (List α) := do
  let localX := form.kfes.GlobalToLocal x
  let localY := List.replicate form.localYSize (0 : α)
  let iSz := form.integrators.length
  cassert ndebug (iSz == 1)
  let localY := form.integrators.foldl (fun localY k => k.MultAdd localX localY) localY
  return form.kfes.LocalToGlobal localY

/-- The function `ParPABilinearForm::MultTranspose`, which starts with
`assert(false)`: returns `y`, or `none` when an assertion fails. -/
def ParPABilinearForm.MultTranspose {α : Type} [Zero α] (ndebug : Bool)
    (form : ParPABilinearForm α) (x : List α) : Option (List α) := do
  cassert ndebug false
  let localX := form.kfes.GlobalToLocal x
  let localY := List.replicate form.localYSize (0 : α)
  let iSz := form.integrators.length
  cassert ndebug (iSz == 1)
  let localY := form.integrators.foldl
    (fun localY k => k.MultTransposeAdd localX localY) localY
  return form.kfes.LocalToGlobal localY

/-- A form on three true DOFs without prolongation and with one integrator, whose
`MultAdd` adds the input and whose `MultTransposeAdd` adds twice the input. -/
def examplePAForm : ParPABilinearForm Int where
  GetProlongationMatrix := none
  GetRestrictionMatrix := none
  integrators := [⟨fun lx ly => List.zipWith (· + ·) ly lx,
    fun lx ly => List.zipWith (fun a b => a + 2 * b) ly lx⟩]
  kfes := ⟨fun x => x, fun y => y⟩
  localYSize := 3

/-! ## `MixedNonlinearForm` -/

/-- The part of `Mesh` used by the boundary-face pass. -/
structure Mesh where
  /-- The boundary attributes that occur in the mesh. -/
  bdr_attributes : List Nat
  /-- Number of boundary elements. -/
  GetNBE : Nat
  /-- Attribute of a boundary element (attributes start at 1). -/
  GetBdrAttribute : Nat → Nat
  /-- Result of `GetBdrFaceTransformations(i)`: the number `Elem1No` of the element
  behind the face, or `NULL`. -/
  GetBdrFaceTransformations : Nat → Option Nat

/-- Modelled from the spec: `Array<int>::Max()` of the `Array` class, which is defined
outside the embedded files: the largest entry of a non-empty array. -/
def ArrayMax (a : List Nat) : Nat :=
  a.tail.foldl max (a.headD 0)

/-- Size of `bdr_attr_marker` (lines 290-291). -/
def Mesh.bdrAttrMarkerSize (mesh : Mesh) : Nat :=
  if mesh.bdr_attributes.length ≠ 0 then ArrayMax mesh.bdr_attributes else 0

/-- A boundary-face integrator of a mixed form: `AssembleRHSElementVector`, as a
function of the element behind the face and the local inputs of all fields. -/
structure MixedNonlinearFormIntegrator (α : Type) where
  /-- Local residuals of all fields on a boundary face. -/
  AssembleRHSElementVector : Nat → List (List α) → List (List α)

/-- State of a `MixedNonlinearForm` used by the boundary-face pass and by the
elimination: the spaces, the integrators of each kind, the markers of the
boundary-face integrators (`NULL` when an integrator has none), the essential DOF
lists and the blocks `Grads(i,j)`. -/
structure MixedNonlinearForm (α : Type) where
  /-- One finite element space for each field. -/
  fes : List FiniteElementSpace
  /-- Registered domain integrators. -/
  dfi : List (MixedNonlinearFormIntegrator α)
  /-- Registered boundary integrators. -/
  bfi : List (MixedNonlinearFormIntegrator α)
  /-- Registered boundary-face integrators. -/
  ffi : List (MixedNonlinearFormIntegrator α)
  /-- Marker of each boundary-face integrator. -/
  ffi_marker : List (Option (List Int))
  /-- Essential DOF list of each field. -/
  ess_vdofs : List (List Nat)
  /-- The blocks of the gradient. -/
  Grads : Nat → Nat → Option (SparseMatrix α)

/-- The function `MixedNonlinearForm::AddBdrFaceIntegrator`: appends the integrator
and its marker. -/
def MixedNonlinearForm.AddBdrFaceIntegrator {α : Type} (F : MixedNonlinearForm α)
    (fi : MixedNonlinearFormIntegrator α) (bdr_attr_marker : List Int) :
    MixedNonlinearForm α :=
  { F with ffi := F.ffi ++ [fi], ffi_marker := F.ffi_marker ++ [some bdr_attr_marker] }

/-- The loop over `k` of lines 293-308: an integrator without marker sets the whole
mask to 1 and leaves the loop; a marker is or-ed into the mask. -/
def MixedNonlinearForm.maskLoop (ffi_marker : List (Option (List Int))) :
    List Nat → List Int → List Int
  | [], bdr_attr_marker => bdr_attr_marker
  | k :: ks, bdr_attr_marker =>
    match ffi_marker.getD k none with
    | none => List.replicate bdr_attr_marker.length 1
    | some bdr_marker =>
      MixedNonlinearForm.maskLoop ffi_marker ks
        ((List.range bdr_attr_marker.length).map
          (fun i => Int.lor (bdr_attr_marker.getD i 0) (bdr_marker.getD i 0)))

/-- The mask `bdr_attr_marker` computed by lines 290-308 for `nffi` integrators. -/
def MixedNonlinearForm.bdrAttrMarker (mesh : Mesh) (nffi : Nat)
    (ffi_marker : List (Option (List Int))) : List Int :=
  MixedNonlinearForm.maskLoop ffi_marker (List.range nffi)
    (List.replicate mesh.bdrAttrMarkerSize 0)

/-- The control flow of the boundary-face pass of `MixedNonlinearForm::Mult` (lines
286-335) on a state `σ`: `gather st i e` stands for the per-field gather on the
element `e` behind boundary element `i` (lines 316-320), `call st i e k` for the
evaluation of integrator `k` and the scatter of its result (lines 326-331). -/
def MixedNonlinearForm.bdrFaceLoop {σ : Type} (mesh : Mesh) (nffi : Nat)
    (ffi_marker : List (Option (List Int)))
    (gather : σ → Nat → Nat → σ) (call : σ → Nat → Nat → Nat → σ) (st : σ) : σ :=
  if nffi ≠ 0 then
    let bdr_attr_marker := MixedNonlinearForm.bdrAttrMarker mesh nffi ffi_marker
    (List.range mesh.GetNBE).foldl
      (fun st i =>
        let bdr_attr := mesh.GetBdrAttribute i
        if bdr_attr_marker.getD (bdr_attr - 1) 0 = 0 then st
        else
          match mesh.GetBdrFaceTransformations i with
          | none => st
          | some Elem1No =>
            (List.range nffi).foldl
              (fun st k =>
                match ffi_marker.getD k none with
                | some marker =>
                  if marker.getD (bdr_attr - 1) 0 = 0 then st else call st i Elem1No k
                | none => call st i Elem1No k)
              (gather st i Elem1No))
      st
  else st

/-- The boundary-face pass of `MixedNonlinearForm::Mult` on the pair of the local
inputs `el_x` and the outputs `ys` of all fields. -/
def MixedNonlinearForm.MultBdrFace {α : Type} [Zero α] [Add α] (F : MixedNonlinearForm α)
    (mesh : Mesh) (xs ys : List (List α)) : List (List α) :=
  (MixedNonlinearForm.bdrFaceLoop mesh F.ffi.length F.ffi_marker
    (fun st _ Elem1No =>
      (F.fes.zipWith (fun f x => GetSubVector x (f.GetElementVDofs Elem1No)) xs, st.2))
    (fun st _ Elem1No k =>
      match F.ffi[k]? with
      | none => st
      | some fi =>
        let el_y := fi.AssembleRHSElementVector Elem1No st.1
        (st.1, (List.range F.fes.length).map (fun s =>
          AddElementVector (st.2.getD s [])
            ((F.fes.map (fun f => f.GetElementVDofs Elem1No)).getD s [])
            (el_y.getD s []))))
    (([] : List (List α)), ys)).2

/-- What the boundary-face pass does on a boundary element. -/
inductive FaceEvent where
  /-- The gather on boundary element `i` (lines 316-320). -/
  | gather (i : Nat)
  /-- The evaluation of integrator `k` on boundary element `i` (line 326). -/
  | eval (i k : Nat)
deriving DecidableEq

/-- The boundary-face pass as the list of its gathers and integrator evaluations,
in order. -/
def MixedNonlinearForm.bdrFaceTrace (mesh : Mesh) (nffi : Nat)
    (ffi_marker : List (Option (List Int))) : List FaceEvent :=
  MixedNonlinearForm.bdrFaceLoop mesh nffi ffi_marker
    (fun st i _ => st ++ [FaceEvent.gather i])
    (fun st i _ k => st ++ [FaceEvent.eval i k]) []

/-- A mesh with two boundary elements of attributes 1 and 2; the first one has no
face transformation. -/
def exampleMesh : Mesh where
  bdr_attributes := [1, 2]
  GetNBE := 2
  GetBdrAttribute := fun i => i + 1
  GetBdrFaceTransformations := fun i => if i = 0 then none else some 0

/-- A mixed form with one field on two DOFs, the essential DOF 0, no integrator of
any kind and null blocks, the state lines 178-183 of the constructor are written to
leave for one field. -/
def exampleBareMixedForm : MixedNonlinearForm Int where
  fes := [⟨1, 2, fun _ => [0, 1], fun _ => [-1, 0], 2⟩]
  dfi := []
  bfi := []
  ffi := []
  ffi_marker := []
  ess_vdofs := [[0]]
  Grads := fun _ _ => none

/-- The bare mixed form after one `AddBdrFaceIntegrator`, whose marker selects both
boundary attributes. -/
def exampleMixedForm : MixedNonlinearForm Int :=
  exampleBareMixedForm.AddBdrFaceIntegrator ⟨fun _ el_x => el_x⟩ [1, 1]

/-- Replaces the block at `(i, j)`. -/
def setBlock {α : Type} (G : Nat → Nat → Option (SparseMatrix α)) (i j : Nat)
    (M : SparseMatrix α) : Nat → Nat → Option (SparseMatrix α) :=
  fun r c => if r = i ∧ c = j then some M else G r c

/-- The body of the innermost loop of the elimination of `MixedNonlinearForm::GetGradient`
(lines 469-475) for field `s`, position `i` and field `j`. Reading `ess_vdofs[s][i]`
past the end of the list and dereferencing a null block give `none`. -/
def MixedNonlinearForm.eliminateStep {α : Type} [Zero α] [One α]
    (ess_vdofs : List (List Nat)) (s i j : Nat)
    (G : Nat → Nat → Option (SparseMatrix α)) :
    Option (Nat → Nat → Option (SparseMatrix α)) := do
  let d ← (ess_vdofs.getD s [])[i]?
  if s = j then
    let M ← G s s
    pure (setBlock G s s (M.EliminateRowCol d))
  else
    let M1 ← G s j
    let G1 := setBlock G s j (M1.EliminateRow d)
    let M2 ← G1 j s
    pure (setBlock G1 j s (M2.EliminateCol d))

/-- Lines 479-485 of `MixedNonlinearForm::GetGradient`: when `Grads(0,0)` is already
finalized, every block is finalized. -/
def MixedNonlinearForm.finalizeStep {α : Type} (nf : Nat)
    (G : Nat → Nat → Option (SparseMatrix α)) :
    Option (Nat → Nat → Option (SparseMatrix α)) := do
  let M00 ← G 0 0
  if M00.finalized then
    (List.range nf).foldlM
      (fun G i => (List.range nf).foldlM
        (fun G j => do
          let M ← G i j
          pure (setBlock G i j (M.Finalize 0))) G) G
  else pure G

/-- Lines 465-486 of `MixedNonlinearForm::GetGradient`, with the undeclared `J` of
line 468 read as `j`: for every field `s`, the elimination loop, whose bound is the
size of the scratch DOF list `vdofs[s]` left by the assembly passes, then the
finalization step. -/
def MixedNonlinearForm.GradEliminate {α : Type} [Zero α] [One α]
    (F : MixedNonlinearForm α) (vdofs : List (List Nat)) :
    Option (Nat → Nat → Option (SparseMatrix α)) :=
  (List.range F.fes.length).foldlM
    (fun G s => do
      let G ← (List.range (vdofs.getD s []).length).foldlM
        (fun G i => (List.range F.fes.length).foldlM
          (fun G j => MixedNonlinearForm.eliminateStep F.ess_vdofs s i j G) G) G
      MixedNonlinearForm.finalizeStep F.fes.length G)
    F.Grads

/-- The bare mixed form with its only block allocated and filled: entry `(r, c)`
holds `5 + r + 2 c`. -/
def exampleMixedFormAllocated : MixedNonlinearForm Int :=
  { exampleBareMixedForm with
    Grads := fun i j => if i = 0 ∧ j = 0 then
      some ⟨2, 2, fun r c => 5 + r + 2 * c, false⟩ else none }

/-- Lines 365-372 of `MixedNonlinearForm::GetGradient`: when `Grads(0,0)` is not
null, every block is deleted and replaced by a new empty matrix of size
`VSize(i) x VSize(j)`; when it is null, nothing is done. -/
def MixedNonlinearForm.GradInit {α : Type} [Zero α] (F : MixedNonlinearForm α) :
    Nat → Nat → Option (SparseMatrix α) :=
  match F.Grads 0 0 with
  | some _ =>
    (List.range F.fes.length).foldl
      (fun G i => (List.range F.fes.length).foldl
        (fun G j =>
          match F.fes[i]?, F.fes[j]? with
          | some fi, some fj => setBlock G i j (SparseMatrix.new fi.GetVSize fj.GetVSize)
          | _, _ => G) G)
      F.Grads
  | none => F.Grads

/-! ## Reduction kernel -/

/-- The function `vector_dot` of `blas/vdot.cpp`. `Cuda` is the accelerator flag
`config::Get().Cuda()` and `cub_vector_dot` the device reduction, which exists only
in a build with `__NVCC__`; with the flag off the sequential loop runs. -/
def vector_dot {α : Type} [Zero α] [Add α] [Mul α] (Cuda : Bool)
    (cub_vector_dot : Int → List α → List α → α) (N : Int) (vec1 vec2 : List α) : α :=
  if Cuda then cub_vector_dot N vec1 vec2
  else (List.range N.toNat).foldl (fun dot i => dot + vec1.getD i 0 * vec2.getD i 0) 0

/-! ## DOF table -/

/-- The content of memory behind a raw pointer to an array: the entries of the array
at its positions, and `junk` at every position outside it. -/
def rawArray (a : List Int) (junk : Int) : Int → Int :=
  fun p => if 0 ≤ p then a.getD p.toNat junk else junk

/-- The class `ktable` of `general/table.hpp`: the number of rows and the memory
behind the raw pointers `I` and `J`, read without any bound. -/
structure ktable where
  /-- Number of rows. -/
  size : Int
  /-- Memory behind the row pointer array. -/
  I : Int → Int
  /-- Memory behind the column index array. -/
  J : Int → Int

/-- The function `ktable::RowSize`, which is `I[i+1]-I[i]` without any test on `i`;
the result is always `some`, the function has no failure path. -/
def ktable.RowSize (t : ktable) (i : Int) : Option Int :=
  some (t.I (i + 1) - t.I i)

/-- The function `ktable::GetRow`, which is the pointer `J+I[i]`, given by its
position in `J`, without any test on `i`; the result is always `some`. -/
def ktable.GetRow (t : ktable) (i : Int) : Option Int :=
  some (t.I i)

/-- The run of `n` entries of `J` read through a pointer at position `start`. -/
def ktable.run (t : ktable) (start : Int) (n : Int) : List Int :=
  (List.range n.toNat).map (fun k => t.J (start + k))

/-- A table with the two rows `[10, 11]` and `[12]`; memory outside the arrays
holds 77. -/
def exampleTable : ktable where
  size := 2
  I := rawArray [0, 2, 3] 77
  J := rawArray [10, 11, 12] 77

/-! ## Constructor of `MixedNonlinearForm` -/

/-- Modelled from the spec: `Array<int>::PartialSum()` of the `Array` class, which is
defined outside the embedded files. It replaces every entry by the sum of the
entries up to it; `sum` is the running sum. -/
def ArrayPartialSum : Nat → List Nat → List Nat
  | _, [] => []
  | sum, v :: vs => (sum + v) :: ArrayPartialSum (sum + v) vs

/-- Sizes and block offsets set by the constructor of `MixedNonlinearForm`. -/
structure BlockLayout where
  /-- Height of the operator. -/
  height : Nat
  /-- Width of the operator. -/
  width : Nat
  /-- Offsets of the blocks in vector DOFs. -/
  block_offsets : List Nat
  /-- Offsets of the blocks in true DOFs. -/
  block_trueOffsets : List Nat
deriving DecidableEq

/-- Modelled from the spec: `Array<T>::Copy(copy)` of the `Array` class, which is
defined outside the embedded files. The spec does not describe it; in MFEM
`receiver.Copy(copy)` copies the receiver into its argument `copy` and leaves the
receiver as it is. The result is the pair of the receiver and the argument after
the call. -/
def ArrayCopy {β : Type} (receiver _copy : List β) : List β × List β :=
  (receiver, receiver)

/-- Line 161 of the constructor, `fes.Copy(f)`: the member `fes`, which is empty when
the constructor starts, and the parameter `f`, after the call. -/
def MixedNonlinearForm.constructCopy (f : List FiniteElementSpace) :
    List FiniteElementSpace × List FiniteElementSpace :=
  ArrayCopy [] f

/-- Lines 162-173 of the constructor, for the arrays `fes` and `f` as they are after
line 161: both offset arrays get `f.Size() + 1` entries (`junk` stands for the content
of a new entry), entry 0 is set to 0, entry `i+1` to the size of `fes[i]` for
`i < fes.Size()`, and `PartialSum` is applied. -/
def MixedNonlinearForm.constructOffsets (fes f : List FiniteElementSpace) (junk : Nat) :
    List Nat × List Nat :=
  let block_offsets := (ArraySetSize [] (f.length + 1) junk).set 0 0
  let block_trueOffsets := (ArraySetSize [] (f.length + 1) junk).set 0 0
  let st := (List.range fes.length).foldl
    (fun st i =>
      match fes[i]? with
      | some fe => (st.1.set (i + 1) fe.GetVSize, st.2.set (i + 1) fe.GetTrueVSize)
      | none => st)
    (block_offsets, block_trueOffsets)
  (ArrayPartialSum 0 st.1, ArrayPartialSum 0 st.2)

/-- The constructor `MixedNonlinearForm::MixedNonlinearForm(f)` (lines 157-184): the
copy of line 161, the offsets, then `height` and `width` read at index
`fes.Size() + 1` of `block_trueOffsets` (a read past the end gives `none`), then
the grid of `fes.Size() x fes.Size()` null blocks. -/
def MixedNonlinearForm.construct {α : Type} (f : List FiniteElementSpace) (junk : Nat) :
    Option (MixedNonlinearForm α × BlockLayout) := do
  let arrays := MixedNonlinearForm.constructCopy f
  let offsets := MixedNonlinearForm.constructOffsets arrays.1 arrays.2 junk
  let height ← offsets.2[arrays.1.length + 1]?
  let width ← offsets.2[arrays.1.length + 1]?
  pure ({ fes := arrays.1, dfi := [], bfi := [], ffi := [], ffi_marker := [],
          ess_vdofs := [], Grads := fun _ _ => none },
        ⟨height, width, offsets.1, offsets.2⟩)

/-- Two spaces with 2 and 3 vector DOFs and 2 and 1 true DOFs. -/
def exampleSpaces : List FiniteElementSpace :=
  [⟨1, 2, fun _ => [0, 1], fun _ => [0, 0], 2⟩,
   ⟨1, 3, fun _ => [0, 1, 2], fun _ => [0, 0, 0], 1⟩]

/-! ## Order of the operations of `NonlinearForm::GetGradient` -/

/-- An operation applied to the matrix by `GetGradient`. An elimination records
whether the matrix was already finalized when it was applied. -/
inductive GradEvent where
  /-- The allocation `new SparseMatrix(n)`. -/
  | alloc (n : Nat)
  /-- The assignment `*Grad = 0.0`. -/
  | zero
  /-- A call `AddSubMatrix(rows, cols, ...)`. -/
  | add (rows cols : List Nat)
  /-- A call `EliminateRowCol(rc)`, on a matrix that was finalized or not. -/
  | eliminate (rc : Nat) (onFinalized : Bool)
  /-- The call `Finalize(skip_zeros)`. -/
  | finalize
deriving DecidableEq

/-- A matrix seen as its finalized state and the operations applied to it so far. -/
structure GradLog where
  /-- Whether the matrix is finalized. -/
  finalized : Bool
  /-- The operations applied during the call, in order. -/
  events : List GradEvent
deriving DecidableEq

/-- The operations on a `GradLog`: each one records itself; only `Finalize` changes
the finalized state, as for the modelled `SparseMatrix`. -/
def GradLog.ops (α : Type) : SparseOps α GradLog where
  new := fun n => ⟨false, [GradEvent.alloc n]⟩
  setZero := fun L => ⟨L.finalized, L.events ++ [GradEvent.zero]⟩
  AddSubMatrix := fun L rows cols _ _ => ⟨L.finalized, L.events ++ [GradEvent.add rows cols]⟩
  EliminateRowCol := fun L rc =>
    ⟨L.finalized, L.events ++ [GradEvent.eliminate rc L.finalized]⟩
  Finalized := fun L => L.finalized
  Finalize := fun L _ => ⟨true, L.events ++ [GradEvent.finalize]⟩

/-- The operations that one call of `GetGradient` applies to the matrix, in order. -/
def NonlinearForm.GetGradientTrace {α : Type} [Zero α] (F : NonlinearForm α)
    (x : List α) : List GradEvent :=
  (F.GetGradientOn (GradLog.ops α) (F.Grad.map (fun G => ⟨G.finalized, []⟩)) x).events

/-- A two-element example on three DOFs: the elements share DOF 1, the first
integrator returns its local input and the second returns the constant 10. -/
def exampleForm : NonlinearForm Int where
  fes := ⟨2, 3, fun i => if i = 0 then [0, 1] else [1, 2], fun _ => [-1, 0, 7], 3⟩
  dfi := [⟨fun _ el_x => el_x, fun _ _ _ _ => 2⟩,
          ⟨fun _ el_x => el_x.map (fun _ => 10), fun _ _ i j => if i = j then 5 else 7⟩]
  ess_vdofs := [0]
  Grad := none

/-! ## Lemmas and theorems -/

theorem length_AddElementVector {α : Type} [Zero α] [Add α] (y : List α) (dofs : List Nat) (el : List α) :
    (AddElementVector y dofs el).length = y.length := by
  induction dofs generalizing y el with
  | nil => simp [AddElementVector]
  | cons d ds ih => simp [AddElementVector, ih]

theorem length_foldl_of_step {α β : Type} (f : List α → β → List α)
    (hf : ∀ y b, (f y b).length = y.length) (l : List β) (y : List α) :
    (l.foldl f y).length = y.length := by
  induction l generalizing y with
  | nil => rfl
  | cons b bs ih => simp [List.foldl_cons, ih, hf]

theorem length_MultAssemble {α : Type} [Zero α] [Add α] (F : NonlinearForm α) (x y : List α) :
    (F.MultAssemble x y).length = y.length := by
  unfold NonlinearForm.MultAssemble
  split
  · apply length_foldl_of_step
    intro y i
    apply length_foldl_of_step
    intro y k
    exact length_AddElementVector _ _ _
  · rfl

/-- Zeroing a list of positions leaves `0` at each of them that is in range. -/
theorem getElem?_zero_loop {α : Type} [Zero α] (ess : List Nat) (y : List α) (d : Nat)
    (hd : d ∈ ess) (hlt : d < y.length) :
    (ess.foldl (fun y d => y.set d 0) y)[d]? = some 0 := by
  induction ess using List.reverseRecOn with
  | nil => cases hd
  | append_singleton es e ih =>
    have hlen : (es.foldl (fun y d => y.set d (0 : α)) y).length = y.length :=
      length_foldl_of_step _ (fun y b => by simp) es y
    rw [List.foldl_append, List.foldl_cons, List.foldl_nil, List.getElem?_set]
    by_cases hed : e = d
    · subst hed
      simp [hlen, hlt]
    · rw [if_neg hed]
      rcases List.mem_append.mp hd with h | h
      · exact ih h
      · simp at h
        exact absurd h.symm hed

/-- Zeroing a list of positions leaves every other position unchanged. -/
theorem getElem?_zero_loop_of_not_mem {α : Type} [Zero α] (ess : List Nat) (y : List α) (g : Nat)
    (hg : g ∉ ess) :
    (ess.foldl (fun y d => y.set d 0) y)[g]? = y[g]? := by
  induction ess generalizing y with
  | nil => rfl
  | cons e es ih =>
    rw [List.foldl_cons, ih _ (fun h => hg (List.mem_cons_of_mem _ h))]
    apply List.getElem?_set_ne
    intro h
    exact hg (h ▸ List.mem_cons_self _ _)

/-- One scatter: the entry at an in-range index `g` becomes the old entry plus, in
order, the local values whose DOF is `g`. -/
theorem getD_AddElementVector {α : Type} [Zero α] [Add α] (g : Nat) (dofs : List Nat) :
    ∀ (y el : List α), g < y.length → dofs.length ≤ el.length →
      (AddElementVector y dofs el).getD g 0 =
        List.foldl (· + ·) (y.getD g 0)
          (((dofs.zip el).filter (fun p => p.1 = g)).map Prod.snd) := by
  induction dofs with
  | nil => intro y el _ _; simp [AddElementVector]
  | cons d ds ih =>
    intro y el hg hlen
    cases el with
    | nil => simp at hlen
    | cons e es =>
      have hlen2 : ds.length ≤ es.length := by simpa using hlen
      simp only [AddElementVector, List.headD_cons, List.tail_cons, List.zip_cons_cons]
      rw [ih _ es (by simpa using hg) hlen2]
      by_cases hdg : d = g
      · subst hdg
        simp [List.filter_cons, List.getD_eq_getElem?_getD, List.getElem?_set, hg]
      · simp [List.filter_cons, hdg, List.getD_eq_getElem?_getD, List.getElem?_set]

/-- A loop of length-preserving steps, each adding its own contributions at `g`,
adds the concatenation of the contributions. -/
theorem getD_foldl_flatMap {α β : Type} [Zero α] [Add α] (g : Nat)
    (step : List α → β → List α) (c : β → List α) (l : List β)
    (hlen : ∀ y b, (step y b).length = y.length)
    (hstep : ∀ b ∈ l, ∀ y : List α, g < y.length →
      (step y b).getD g 0 = List.foldl (· + ·) (y.getD g 0) (c b)) :
    ∀ y : List α, g < y.length →
      (l.foldl step y).getD g 0 = List.foldl (· + ·) (y.getD g 0) (l.flatMap c) := by
  induction l with
  | nil => intro y _; simp
  | cons b bs ih =>
    intro y hg
    rw [List.foldl_cons, List.flatMap_cons, List.foldl_append,
      ih (fun b hb => hstep b (List.mem_cons_of_mem _ hb)) _ (by rw [hlen]; exact hg),
      hstep b (List.mem_cons_self _ _) y hg]

theorem set_zero_replicate {α : Type} [Zero α] (n d : Nat) :
    (List.replicate n (0 : α)).set d 0 = List.replicate n 0 := by
  apply List.ext_getElem?
  intro j
  rw [List.getElem?_set]
  by_cases h : d = j
  · subst h
    simp [List.getElem?_replicate]
  · simp [h]

theorem zero_loop_replicate {α : Type} [Zero α] (ess : List Nat) (n : Nat) :
    ess.foldl (fun y d => y.set d 0) (List.replicate n (0 : α)) = List.replicate n 0 := by
  induction ess with
  | nil => rfl
  | cons e es ih => rw [List.foldl_cons, set_zero_replicate, ih]

/-! ### Gradient -/

theorem SparseMatrix.EntryOnly.comp {α : Type} {S T : SparseMatrix α → SparseMatrix α}
    (hS : SparseMatrix.EntryOnly S) (hT : SparseMatrix.EntryOnly T) :
    SparseMatrix.EntryOnly (fun M => T (S M)) := by
  obtain ⟨φ, hφ⟩ := hS
  obtain ⟨ψ, hψ⟩ := hT
  exact ⟨fun e => ψ (φ e), fun M => by show T (S M) = _; rw [hφ, hψ]⟩

theorem SparseMatrix.EntryOnly.foldl {α β : Type} (f : SparseMatrix α → β → SparseMatrix α)
    (l : List β) (hf : ∀ b, SparseMatrix.EntryOnly (fun M => f M b)) :
    SparseMatrix.EntryOnly (fun M => l.foldl f M) := by
  induction l with
  | nil => exact ⟨fun e => e, fun M => rfl⟩
  | cons b bs ih => exact SparseMatrix.EntryOnly.comp (hf b) ih

theorem SparseMatrix.EntryOnly.AddSubMatrix {α : Type} [Add α] (rows cols : List Nat)
    (elmat : Nat → Nat → α) (sz : Int) :
    SparseMatrix.EntryOnly (fun M => M.AddSubMatrix rows cols elmat sz) := by
  unfold SparseMatrix.AddSubMatrix
  apply SparseMatrix.EntryOnly.foldl
  intro i
  apply SparseMatrix.EntryOnly.foldl
  intro j
  exact ⟨fun e r c => if r = rows.getD i 0 ∧ c = cols.getD j 0 then e r c + elmat i j
    else e r c, fun M => rfl⟩

theorem NonlinearForm.GradAssemble_entryOnly {α : Type} [Zero α] [Add α]
    (F : NonlinearForm α) (x : List α) :
    SparseMatrix.EntryOnly (fun G => F.GradAssemble x G) := by
  unfold NonlinearForm.GradAssemble
  split
  · apply SparseMatrix.EntryOnly.foldl
    intro i
    apply SparseMatrix.EntryOnly.foldl
    intro k
    exact SparseMatrix.EntryOnly.AddSubMatrix _ _ _ _
  · exact ⟨fun e => e, fun M => rfl⟩

theorem NonlinearForm.GradEliminate_entryOnly {α : Type} [Zero α] [One α]
    (F : NonlinearForm α) :
    SparseMatrix.EntryOnly (fun G => F.GradEliminate G) := by
  unfold NonlinearForm.GradEliminate
  apply SparseMatrix.EntryOnly.foldl
  intro d
  exact ⟨fun e r c => if r = d ∨ c = d then (if r = d ∧ c = d then 1 else 0) else e r c,
    fun M => rfl⟩

/-- After a loop of `EliminateRowCol`, every eliminated index has a unit diagonal
entry and zeros elsewhere in its row and column. -/
theorem entry_eliminate_loop {α : Type} [Zero α] [One α] (ess : List Nat)
    (G : SparseMatrix α) (d : Nat) (hd : d ∈ ess) :
    (ess.foldl (fun G d => G.EliminateRowCol d) G).entry d d = 1 ∧
      ∀ j, j ≠ d →
        (ess.foldl (fun G d => G.EliminateRowCol d) G).entry d j = 0 ∧
        (ess.foldl (fun G d => G.EliminateRowCol d) G).entry j d = 0 := by
  induction ess using List.reverseRecOn with
  | nil => cases hd
  | append_singleton es e ih =>
    rw [List.foldl_append, List.foldl_cons, List.foldl_nil]
    by_cases hed : d = e
    · subst hed
      refine ⟨by simp [SparseMatrix.EliminateRowCol], fun j hj => ?_⟩
      simp [SparseMatrix.EliminateRowCol, hj]
    · have hmem : d ∈ es := by
        rcases List.mem_append.mp hd with h | h
        · exact h
        · simp at h; exact absurd h hed
      obtain ⟨h1, h2⟩ := ih hmem
      refine ⟨by simpa [SparseMatrix.EliminateRowCol, hed] using h1, fun j hj => ?_⟩
      by_cases hje : j = e
      · subst hje
        simp [SparseMatrix.EliminateRowCol, hed]
      · simpa [SparseMatrix.EliminateRowCol, hed, hje] using h2 j hj

/-- C1. After `NonlinearForm::Mult(x, y)` the output is zero at every essential DOF that
is a valid index of `y`, whatever the domain integrators return. -/
theorem NonlinearForm.Mult_essential_zero {α : Type} [Zero α] [Add α]
    (F : NonlinearForm α) (x y : List α)
    (hess : ∀ d ∈ F.ess_vdofs, d < y.length) :
    ∀ d ∈ F.ess_vdofs, (F.Mult x y)[d]? = some 0 := by
  intro d hd
  unfold NonlinearForm.Mult
  apply getElem?_zero_loop _ _ _ hd
  rw [length_MultAssemble, List.length_replicate]
  exact hess d hd

/-- Witness of C1 on the two-element example: entry 0 is essential and is zero. -/
theorem NonlinearForm.Mult_essential_zero_witness :
    (∀ d ∈ exampleForm.ess_vdofs, d < [9, 9, 9].length) ∧
      ∀ d ∈ exampleForm.ess_vdofs, (exampleForm.Mult [1, 2, 3] [9, 9, 9])[d]? = some 0 :=
  ⟨by decide, NonlinearForm.Mult_essential_zero exampleForm [1, 2, 3] [9, 9, 9] (by decide)⟩

/-- C2. At an index `g` that is not essential, `NonlinearForm::Mult(x, y)` leaves the sum,
accumulated from 0 in loop order, of the entries `l` with `vdofs_i[l] = g` of the
element vectors of all elements `i` and all domain integrators `k` (in-range DOF lists
and element vectors as long as the DOF list are assumed); without domain integrators
the result is the zero vector. -/
theorem NonlinearForm.Mult_entry_is_sum {α : Type} [Zero α] [Add α]
    (F : NonlinearForm α) (x y : List α) (g : Nat)
    (hg : g < y.length) (hness : g ∉ F.ess_vdofs)
    (_hrange : ∀ i < F.fes.GetNE, ∀ d ∈ F.fes.GetElementVDofs i,
      d < x.length ∧ d < y.length)
    (hlen : ∀ i < F.fes.GetNE, ∀ k ∈ F.dfi,
      (k.AssembleElementVector i (GetSubVector x (F.fes.GetElementVDofs i))).length =
        (F.fes.GetElementVDofs i).length) :
    (F.Mult x y)[g]? = some (List.foldl (· + ·) 0 (F.contributions x g)) ∧
      (F.dfi = [] → F.Mult x y = List.replicate y.length 0) := by
  constructor
  · unfold NonlinearForm.Mult
    rw [getElem?_zero_loop_of_not_mem _ _ _ hness]
    have hlt : g < (F.MultAssemble x (List.replicate y.length 0)).length := by
      rw [length_MultAssemble, List.length_replicate]; exact hg
    rw [List.getElem?_eq_getElem hlt, ← List.getD_eq_getElem _ 0 hlt]
    congr 1
    unfold NonlinearForm.MultAssemble NonlinearForm.contributions
    split
    · have h0 : (List.replicate y.length (0 : α)).getD g 0 = 0 := by
        simp [List.getD_eq_getElem?_getD, List.getElem?_replicate, hg]
      rw [getD_foldl_flatMap g _ _ (List.range F.fes.GetNE) _ _ _
        (by rw [List.length_replicate]; exact hg), h0]
      · intro y i
        exact length_foldl_of_step _ (fun y k => length_AddElementVector _ _ _) _ _
      · intro i hi y hy
        apply getD_foldl_flatMap g _ _ F.dfi _ _ y hy
        · intro y k
          exact length_AddElementVector _ _ _
        · intro k hk y hy
          exact getD_AddElementVector g _ y _ hy
            (le_of_eq (hlen i (List.mem_range.mp hi) k hk).symm)
    · rename_i h
      have hnil : F.dfi = [] := by
        cases hd : F.dfi with
        | nil => rfl
        | cons a l => rw [hd] at h; simp at h
      have hflat : ∀ l : List Nat, l.flatMap (fun _ => ([] : List α)) = [] := by
        intro l
        induction l with
        | nil => rfl
        | cons a l ih => rw [List.flatMap_cons, ih]; rfl
      simp [hnil, hflat, List.getD_eq_getElem?_getD, List.getElem?_replicate, hg]
  · intro hnil
    unfold NonlinearForm.Mult NonlinearForm.MultAssemble
    simp only [hnil, List.length_nil, ne_eq, not_true_eq_false, if_false]
    exact zero_loop_replicate _ _

/-- Witness of C2 on the two-element example: DOF 1 is shared by both elements and
receives the four contributions 2, 10, 2, 10. -/
theorem NonlinearForm.Mult_entry_is_sum_witness :
    (exampleForm.Mult [1, 2, 3] [9, 9, 9])[1]? = some 24 ∧
      ((exampleForm.Mult [1, 2, 3] [9, 9, 9])[1]? =
          some (List.foldl (· + ·) 0 (exampleForm.contributions [1, 2, 3] 1)) ∧
        (exampleForm.dfi = [] →
          exampleForm.Mult [1, 2, 3] [9, 9, 9] = List.replicate [9, 9, 9].length 0)) :=
  ⟨by decide, NonlinearForm.Mult_entry_is_sum exampleForm [1, 2, 3] [9, 9, 9] 1
    (by decide) (by decide) (by decide) (by decide)⟩

/-- The assembly and elimination passes of `GetGradient` rewrite the entries as a
function of the initial entries and of nothing else in the matrix. -/
theorem NonlinearForm.GradPasses_entryOnly {α : Type} [Zero α] [One α] [Add α]
    (F : NonlinearForm α) (x : List α) :
    ∃ φ : (Nat → Nat → α) → Nat → Nat → α, ∀ (F2 : NonlinearForm α),
      F2.fes = F.fes → F2.dfi = F.dfi → F2.ess_vdofs = F.ess_vdofs →
      ∀ M, F2.GradEliminate (F2.GradAssemble x M) = { M with entry := φ M.entry } := by
  obtain ⟨φ, hφ⟩ := SparseMatrix.EntryOnly.comp (NonlinearForm.GradAssemble_entryOnly F x)
    (NonlinearForm.GradEliminate_entryOnly F)
  refine ⟨φ, fun F2 h1 h2 h3 M => ?_⟩
  have h := hφ M
  simp only [NonlinearForm.GradEliminate, NonlinearForm.GradAssemble] at h ⊢
  rw [h1, h2, h3]
  exact h

/-- The function `GetGradient` is its body on the modelled `SparseMatrix`. -/
theorem NonlinearForm.GetGradient_eq_GetGradientOn {α : Type} [Zero α] [One α] [Add α]
    (F : NonlinearForm α) (x : List α) :
    (F.GetGradient x).1 = F.GetGradientOn (SparseMatrix.ops α) F.Grad x := rfl

/-- The matrix returned by `GetGradient`, by the passes of its body: initialisation,
assembly, elimination and the final `Finalize` when the matrix is not finalized. -/
theorem NonlinearForm.GetGradient_fst {α : Type} [Zero α] [One α] [Add α]
    (F : NonlinearForm α) (x : List α) :
    (F.GetGradient x).1 =
      if !(F.GradEliminate (F.GradAssemble x F.GradInit)).finalized then
        (F.GradEliminate (F.GradAssemble x F.GradInit)).Finalize 0
      else F.GradEliminate (F.GradAssemble x F.GradInit) := by
  simp only [NonlinearForm.GetGradient, NonlinearForm.GetGradientOn, SparseMatrix.ops,
    NonlinearForm.GradEliminate, NonlinearForm.GradAssemble, NonlinearForm.GradInit]
  cases F.Grad <;> rfl

/-- A loop whose steps record events and keep the finalized state records the events
of all its steps, in order. -/
theorem GradLog.foldl_of_step {β : Type} (step : GradLog → β → GradLog)
    (ev : Bool → β → List GradEvent)
    (h : ∀ L b, step L b = ⟨L.finalized, L.events ++ ev L.finalized b⟩) (l : List β) :
    ∀ L : GradLog,
      l.foldl step L = ⟨L.finalized, L.events ++ l.flatMap (ev L.finalized)⟩ := by
  induction l with
  | nil => intro L; simp
  | cons b bs ih =>
    intro L
    rw [List.foldl_cons, ih, h]
    simp [List.flatMap_cons]

/-- The operations of one call of `GetGradient`, in order: the allocation or the
zeroing, every `AddSubMatrix` of the element loop, every `EliminateRowCol`, and then
`Finalize` if the matrix was not finalized. -/
theorem NonlinearForm.GetGradientTrace_eq {α : Type} [Zero α] (F : NonlinearForm α)
    (x : List α) :
    F.GetGradientTrace x =
      (if F.Grad.isSome then GradEvent.zero else GradEvent.alloc F.fes.GetVSize) ::
        ((List.range F.fes.GetNE).flatMap (fun i => F.dfi.flatMap (fun _ =>
            [GradEvent.add (F.fes.GetElementVDofs i) (F.fes.GetElementVDofs i)])) ++
          F.ess_vdofs.map
            (fun d => GradEvent.eliminate d ((F.Grad.map (fun G => G.finalized)).getD false)) ++
          (if (F.Grad.map (fun G => G.finalized)).getD false then []
            else [GradEvent.finalize])) := by
  have hinner : ∀ (i : Nat) (L : GradLog),
      F.dfi.foldl (fun G k => (GradLog.ops α).AddSubMatrix G (F.fes.GetElementVDofs i)
          (F.fes.GetElementVDofs i)
          (k.AssembleElementGrad i (GetSubVector x (F.fes.GetElementVDofs i))) 0) L =
        ⟨L.finalized, L.events ++ F.dfi.flatMap (fun _ =>
          [GradEvent.add (F.fes.GetElementVDofs i) (F.fes.GetElementVDofs i)])⟩ :=
    fun i L => GradLog.foldl_of_step _ (fun _ _ =>
      [GradEvent.add (F.fes.GetElementVDofs i) (F.fes.GetElementVDofs i)])
      (fun _ _ => rfl) F.dfi L
  have houter : ∀ L : GradLog,
      (if F.dfi.length ≠ 0 then
        (List.range F.fes.GetNE).foldl (fun G i =>
          F.dfi.foldl (fun G k => (GradLog.ops α).AddSubMatrix G (F.fes.GetElementVDofs i)
            (F.fes.GetElementVDofs i)
            (k.AssembleElementGrad i (GetSubVector x (F.fes.GetElementVDofs i))) 0) G) L
      else L) =
        ⟨L.finalized, L.events ++ (List.range F.fes.GetNE).flatMap (fun i =>
          F.dfi.flatMap (fun _ =>
            [GradEvent.add (F.fes.GetElementVDofs i) (F.fes.GetElementVDofs i)]))⟩ := by
    intro L
    split
    · exact GradLog.foldl_of_step _ (fun _ i => F.dfi.flatMap (fun _ =>
        [GradEvent.add (F.fes.GetElementVDofs i) (F.fes.GetElementVDofs i)]))
        (fun L i => hinner i L) _ L
    · rename_i hlen
      have hnil : F.dfi = [] := List.length_eq_zero.mp (by simpa using hlen)
      have hflat : ∀ l : List Nat, l.flatMap (fun _ => ([] : List GradEvent)) = [] := by
        intro l
        induction l with
        | nil => rfl
        | cons a l ih => rw [List.flatMap_cons, ih]; rfl
      simp [hnil, hflat]
  have helim : ∀ L : GradLog,
      F.ess_vdofs.foldl (fun G d => (GradLog.ops α).EliminateRowCol G d) L =
        ⟨L.finalized, L.events ++
          F.ess_vdofs.map (fun d => GradEvent.eliminate d L.finalized)⟩ := by
    intro L
    have hstep := GradLog.foldl_of_step
      (fun G d => (GradLog.ops α).EliminateRowCol G d)
      (fun fin d => [GradEvent.eliminate d fin]) (fun _ _ => rfl) F.ess_vdofs L
    rw [hstep]
    have hmap : ∀ l : List Nat,
        l.flatMap (fun d => [GradEvent.eliminate d L.finalized]) =
          l.map (fun d => GradEvent.eliminate d L.finalized) := by
      intro l
      induction l with
      | nil => rfl
      | cons d ds ih => rw [List.flatMap_cons, ih]; rfl
    rw [hmap]
  simp only [NonlinearForm.GetGradientTrace, NonlinearForm.GetGradientOn]
  rw [houter, helim]
  cases hG : F.Grad with
  | none => simp [GradLog.ops]
  | some G =>
    cases hfin : G.finalized <;> simp [GradLog.ops, hfin]

/-- C3, as stated, fails: on the second of two calls on the example form, the essential
DOF 0 is eliminated on a matrix that is already finalized (it still is from the first
call, `*Grad = 0.0` does not undo that), and `Finalize` is not called after the
elimination. On the first call the elimination precedes `Finalize`. -/
theorem NonlinearForm.GetGradient_order_counterexample :
    exampleForm.GetGradientTrace [1, 2, 3] =
        [GradEvent.alloc 3,
          GradEvent.add [0, 1] [0, 1], GradEvent.add [0, 1] [0, 1],
          GradEvent.add [1, 2] [1, 2], GradEvent.add [1, 2] [1, 2],
          GradEvent.eliminate 0 false, GradEvent.finalize] ∧
    (exampleForm.GetGradient [1, 2, 3]).2.GetGradientTrace [1, 2, 3] =
        [GradEvent.zero,
          GradEvent.add [0, 1] [0, 1], GradEvent.add [0, 1] [0, 1],
          GradEvent.add [1, 2] [1, 2], GradEvent.add [1, 2] [1, 2],
          GradEvent.eliminate 0 true] ∧
    GradEvent.eliminate 0 true ∈
        (exampleForm.GetGradient [1, 2, 3]).2.GetGradientTrace [1, 2, 3] ∧
    GradEvent.finalize ∉
        (exampleForm.GetGradient [1, 2, 3]).2.GetGradientTrace [1, 2, 3] := by
  decide

/-- C3, amended. For every essential DOF `d`, the matrix returned by
`NonlinearForm::GetGradient(x)` has the entry 1 at `(d,d)` and 0 elsewhere in row `d`
and column `d`, whatever was accumulated. In every call the operations on the matrix
are, in this order: the allocation or the zeroing, all `AddSubMatrix` calls, the
`EliminateRowCol` of every essential DOF, and last `Finalize`, which is called only
when the matrix is not finalized yet: on a call that starts with `Grad == NULL` the
matrix is not finalized while it is eliminated, on a later call it still is finalized
from the call before and `Finalize` is not called again. -/
theorem NonlinearForm.GetGradient_essential_rowcol {α : Type} [Zero α] [One α] [Add α]
    (F : NonlinearForm α) (x : List α) (d : Nat) (hd : d ∈ F.ess_vdofs) :
    ((F.GetGradient x).1.entry d d = 1 ∧
      ∀ j, j ≠ d → (F.GetGradient x).1.entry d j = 0 ∧ (F.GetGradient x).1.entry j d = 0) ∧
    (F.GetGradient x).1.finalized = true ∧
    (F.GetGradient x).1 = F.GetGradientOn (SparseMatrix.ops α) F.Grad x ∧
    F.GetGradientTrace x =
      (if F.Grad.isSome then GradEvent.zero else GradEvent.alloc F.fes.GetVSize) ::
        ((List.range F.fes.GetNE).flatMap (fun i => F.dfi.flatMap (fun _ =>
            [GradEvent.add (F.fes.GetElementVDofs i) (F.fes.GetElementVDofs i)])) ++
          F.ess_vdofs.map
            (fun d => GradEvent.eliminate d ((F.Grad.map (fun G => G.finalized)).getD false)) ++
          (if (F.Grad.map (fun G => G.finalized)).getD false then []
            else [GradEvent.finalize])) ∧
    (F.Grad = none → GradEvent.eliminate d false ∈ F.GetGradientTrace x ∧
      F.GetGradientTrace x ≠ [] ∧
      (F.GetGradientTrace x).getLast? = some GradEvent.finalize) ∧
    (∀ G, F.Grad = some G → G.finalized = true →
      GradEvent.eliminate d true ∈ F.GetGradientTrace x ∧
      GradEvent.finalize ∉ F.GetGradientTrace x) := by
  have hentry : (F.GetGradient x).1.entry =
      (F.GradEliminate (F.GradAssemble x F.GradInit)).entry := by
    rw [NonlinearForm.GetGradient_fst]
    split <;> rfl
  refine ⟨?_, ?_, NonlinearForm.GetGradient_eq_GetGradientOn F x,
    NonlinearForm.GetGradientTrace_eq F x, ?_, ?_⟩
  · rw [hentry]
    exact entry_eliminate_loop F.ess_vdofs _ d hd
  · rw [NonlinearForm.GetGradient_fst]
    split
    · rfl
    · rename_i h
      simpa using h
  · intro hnone
    rw [NonlinearForm.GetGradientTrace_eq, hnone]
    refine ⟨?_, by simp, ?_⟩
    · simp only [Option.map_none', Option.getD_none]
      apply List.mem_cons_of_mem
      apply List.mem_append_left
      apply List.mem_append_right
      exact List.mem_map.mpr ⟨d, hd, rfl⟩
    · simp [List.getLast?_cons, List.getLast?_append]
  · intro G hG hfin
    rw [NonlinearForm.GetGradientTrace_eq, hG]
    simp only [Option.map_some', Option.getD_some, hfin, if_true, List.append_nil,
      Option.isSome_some]
    refine ⟨?_, ?_⟩
    · apply List.mem_cons_of_mem
      apply List.mem_append_right
      exact List.mem_map.mpr ⟨d, hd, rfl⟩
    · intro hmem
      rcases List.mem_cons.mp hmem with h | h
      · cases h
      · rcases List.mem_append.mp h with h | h
        · obtain ⟨i, _, hi⟩ := List.mem_flatMap.mp h
          obtain ⟨k, _, hk⟩ := List.mem_flatMap.mp hi
          simp at hk
        · obtain ⟨d2, _, hd2⟩ := List.mem_map.mp h
          cases hd2

/-- Witness of the amended C3 on the two-element example, whose essential DOF is 0. -/
theorem NonlinearForm.GetGradient_essential_rowcol_witness :
    (0 ∈ exampleForm.ess_vdofs ∧ (exampleForm.GetGradient [1, 2, 3]).1.entry 1 1 = 14 ∧
      (exampleForm.GetGradient [1, 2, 3]).1.entry 0 0 = 1 ∧
      (exampleForm.GetGradient [1, 2, 3]).1.entry 0 1 = 0 ∧
      (exampleForm.GetGradient [1, 2, 3]).1.entry 1 0 = 0) ∧
    (((exampleForm.GetGradient [1, 2, 3]).1.entry 0 0 = 1 ∧
      ∀ j, j ≠ 0 → (exampleForm.GetGradient [1, 2, 3]).1.entry 0 j = 0 ∧
        (exampleForm.GetGradient [1, 2, 3]).1.entry j 0 = 0) ∧
    (exampleForm.GetGradient [1, 2, 3]).1.finalized = true ∧
    (exampleForm.GetGradient [1, 2, 3]).1 =
      exampleForm.GetGradientOn (SparseMatrix.ops Int) exampleForm.Grad [1, 2, 3] ∧
    exampleForm.GetGradientTrace [1, 2, 3] =
      (if exampleForm.Grad.isSome then GradEvent.zero
        else GradEvent.alloc exampleForm.fes.GetVSize) ::
        ((List.range exampleForm.fes.GetNE).flatMap (fun i =>
            exampleForm.dfi.flatMap (fun _ =>
              [GradEvent.add (exampleForm.fes.GetElementVDofs i)
                (exampleForm.fes.GetElementVDofs i)])) ++
          exampleForm.ess_vdofs.map
            (fun d => GradEvent.eliminate d
              ((exampleForm.Grad.map (fun G => G.finalized)).getD false)) ++
          (if (exampleForm.Grad.map (fun G => G.finalized)).getD false then []
            else [GradEvent.finalize])) ∧
    (exampleForm.Grad = none →
      GradEvent.eliminate 0 false ∈ exampleForm.GetGradientTrace [1, 2, 3] ∧
      exampleForm.GetGradientTrace [1, 2, 3] ≠ [] ∧
      (exampleForm.GetGradientTrace [1, 2, 3]).getLast? = some GradEvent.finalize) ∧
    (∀ G, exampleForm.Grad = some G → G.finalized = true →
      GradEvent.eliminate 0 true ∈ exampleForm.GetGradientTrace [1, 2, 3] ∧
      GradEvent.finalize ∉ exampleForm.GetGradientTrace [1, 2, 3])) :=
  ⟨by decide, NonlinearForm.GetGradient_essential_rowcol exampleForm [1, 2, 3] 0 (by decide)⟩

/-- C5. Calling `NonlinearForm::GetGradient(x)` twice in succession returns the same
matrix both times: the second call starts from the all-zero matrix of the same size
(the first from a freshly allocated one), so nothing of the first result is added
into the second. -/
theorem NonlinearForm.GetGradient_twice {α : Type} [Zero α] [One α] [Add α]
    (F : NonlinearForm α) (x : List α) :
    ((F.GetGradient x).2.GetGradient x).1 = (F.GetGradient x).1 ∧
    (F.GetGradient x).2.GradInit.entry = (fun _ _ => 0) ∧
    (F.GetGradient x).2.GradInit.height = (F.GetGradient x).1.height ∧
    (F.GetGradient x).2.GradInit.width = (F.GetGradient x).1.width ∧
    (F.Grad = none →
      F.GradInit = SparseMatrix.new F.fes.GetVSize F.fes.GetVSize) := by
  obtain ⟨φ, hφ⟩ := NonlinearForm.GradPasses_entryOnly F x
  have hG : ∀ F2 : NonlinearForm α, F2.fes = F.fes → F2.dfi = F.dfi →
      F2.ess_vdofs = F.ess_vdofs →
      (F2.GetGradient x).1 =
        ⟨F2.GradInit.height, F2.GradInit.width, φ (fun _ _ => 0), true⟩ := by
    intro F2 e1 e2 e3
    have hinit : F2.GradInit.entry = fun _ _ => 0 := by
      unfold NonlinearForm.GradInit
      split <;> rfl
    rw [NonlinearForm.GetGradient_fst, hφ F2 e1 e2 e3]
    cases hfin : F2.GradInit.finalized <;> simp [hinit, SparseMatrix.Finalize]
  have hsz : (F.GetGradient x).2.GradInit = (F.GetGradient x).1.setZero := rfl
  refine ⟨?_, rfl, rfl, rfl, ?_⟩
  · rw [hG (F.GetGradient x).2 rfl rfl rfl, hsz, hG F rfl rfl rfl]
    rfl
  · intro hnone
    simp [NonlinearForm.GradInit, hnone]

/-! ### Essential DOF list -/

theorem SetEssentialBC.count_loop (p : Nat → Bool) (l : List Nat) (n : Nat) :
    l.foldl (fun nv i => if p i then nv + 1 else nv) n = n + (l.filter p).length := by
  induction l generalizing n with
  | nil => simp
  | cons i l ih =>
    rw [List.foldl_cons, ih, List.filter_cons]
    by_cases h : p i <;> simp [h]
    omega

theorem SetEssentialBC.fill_loop (p : Nat → Bool) (l : List Nat) :
    ∀ (pre rest : List Nat), (l.filter p).length ≤ rest.length →
      l.foldl (fun st i => if p i then (st.1.set st.2 i, st.2 + 1) else st)
          (pre ++ rest, pre.length) =
        (pre ++ l.filter p ++ rest.drop (l.filter p).length,
          pre.length + (l.filter p).length) := by
  induction l with
  | nil => intro pre rest _; simp
  | cons i l ih =>
    intro pre rest hlen
    rw [List.filter_cons] at hlen
    rw [List.foldl_cons, List.filter_cons]
    by_cases h : p i
    · simp only [h, if_true] at hlen ⊢
      cases rest with
      | nil => simp at hlen
      | cons r rs =>
        have hset : (pre ++ r :: rs).set pre.length i = (pre ++ [i]) ++ rs := by
          simp [List.set_append]
        have hlen2 : (l.filter p).length ≤ rs.length := by simpa using hlen
        have hpos : pre.length + 1 = (pre ++ [i]).length := by simp
        rw [hset, hpos, ih (pre ++ [i]) rs hlen2]
        simp
        omega
    · simp only [h, Bool.false_eq_true, if_false] at hlen ⊢
      exact ih pre rest hlen

theorem ArraySetSize_length (a : List Nat) (nsize junk : Nat) :
    (ArraySetSize a nsize junk).length = nsize := by
  simp [ArraySetSize, List.length_take]
  omega

theorem eq_map_getD_range (m : List Int) :
    m = (List.range m.length).map (fun i => m.getD i 0) := by
  apply List.ext_getElem?
  intro i
  by_cases h : i < m.length
  · simp [List.getElem?_range, h, List.getD_eq_getElem?_getD]
  · simp [h, List.getElem?_eq_none, Nat.le_of_not_lt h]

/-- C4. When the marker array has length `vsize`, `NonlinearForm::SetEssentialBC` leaves
`ess_vdofs` equal to the strictly increasing list of the indices `i < vsize` whose
marker is not 0: no duplicates, as many entries as non-zero markers, and no unmarked
index; the previous content of `ess_vdofs` and of the resized array plays no role. -/
theorem NonlinearForm.SetEssentialBC_ess_vdofs {α : Type} [Zero α]
    (F : NonlinearForm α) (bdr_attr_is_ess : List Int) (rhs : Option (List α)) (junk : Nat)
    (hlen : (F.fes.GetEssentialVDofs bdr_attr_is_ess).length = F.fes.GetVSize) :
    (F.SetEssentialBC bdr_attr_is_ess rhs junk).1.ess_vdofs =
        (List.range F.fes.GetVSize).filter
          (fun i => (F.fes.GetEssentialVDofs bdr_attr_is_ess).getD i 0 ≠ 0) ∧
    (F.SetEssentialBC bdr_attr_is_ess rhs junk).1.ess_vdofs.Pairwise (· < ·) ∧
    (F.SetEssentialBC bdr_attr_is_ess rhs junk).1.ess_vdofs.Nodup ∧
    (F.SetEssentialBC bdr_attr_is_ess rhs junk).1.ess_vdofs.length =
        (F.fes.GetEssentialVDofs bdr_attr_is_ess).countP (fun v => v ≠ 0) ∧
    (∀ i, i ∈ (F.SetEssentialBC bdr_attr_is_ess rhs junk).1.ess_vdofs ↔
        i < F.fes.GetVSize ∧ (F.fes.GetEssentialVDofs bdr_attr_is_ess)[i]? ≠ some 0) := by
  have hmain : (F.SetEssentialBC bdr_attr_is_ess rhs junk).1.ess_vdofs =
      (List.range F.fes.GetVSize).filter
        (fun i => (F.fes.GetEssentialVDofs bdr_attr_is_ess).getD i 0 ≠ 0) := by
    simp only [NonlinearForm.SetEssentialBC, SetEssentialBC.fill, SetEssentialBC.count]
    have hc := SetEssentialBC.count_loop
      (fun i => (F.fes.GetEssentialVDofs bdr_attr_is_ess).getD i 0 ≠ 0)
      (List.range F.fes.GetVSize) 0
    simp only [decide_eq_true_eq, Nat.zero_add] at hc
    rw [hc]
    have hf := SetEssentialBC.fill_loop
      (fun i => (F.fes.GetEssentialVDofs bdr_attr_is_ess).getD i 0 ≠ 0)
      (List.range F.fes.GetVSize) []
      (ArraySetSize F.ess_vdofs ((List.range F.fes.GetVSize).filter
        (fun i => (F.fes.GetEssentialVDofs bdr_attr_is_ess).getD i 0 ≠ 0)).length junk)
      (by rw [ArraySetSize_length])
    simp only [decide_eq_true_eq, List.nil_append, List.length_nil, Nat.zero_add] at hf
    rw [hf]
    simp [List.drop_eq_nil_of_le, ArraySetSize_length]
  rw [hmain]
  refine ⟨rfl, ?_, ?_, ?_, ?_⟩
  · exact List.Pairwise.filter _ (List.pairwise_lt_range _)
  · exact List.Nodup.filter _ (List.nodup_range _)
  · conv_rhs => rw [eq_map_getD_range (F.fes.GetEssentialVDofs bdr_attr_is_ess)]
    rw [List.countP_map, List.countP_eq_length_filter, hlen]
    rfl
  · intro i
    rw [List.mem_filter, List.mem_range]
    constructor
    · rintro ⟨h1, h2⟩
      refine ⟨h1, ?_⟩
      have hi : i < (F.fes.GetEssentialVDofs bdr_attr_is_ess).length := hlen ▸ h1
      simpa [List.getD_eq_getElem?_getD, List.getElem?_eq_getElem hi] using h2
    · rintro ⟨h1, h2⟩
      refine ⟨h1, ?_⟩
      have hi : i < (F.fes.GetEssentialVDofs bdr_attr_is_ess).length := hlen ▸ h1
      simpa [List.getD_eq_getElem?_getD, List.getElem?_eq_getElem hi] using h2

/-- Witness of C4 on the two-element example, whose marker array is `[-1, 0, 7]`:
the stale list `[0]` is replaced by `[0, 2]`. -/
theorem NonlinearForm.SetEssentialBC_ess_vdofs_witness :
    ((exampleForm.fes.GetEssentialVDofs [1]).length = exampleForm.fes.GetVSize ∧
      (exampleForm.SetEssentialBC [1] (some [4, 5, 6]) 99).1.ess_vdofs = [0, 2] ∧
      (exampleForm.SetEssentialBC [1] (some [4, 5, 6]) 99).2 = some [0, 5, 0]) ∧
    ((exampleForm.SetEssentialBC [1] (some [4, 5, 6]) 99).1.ess_vdofs =
        (List.range exampleForm.fes.GetVSize).filter
          (fun i => (exampleForm.fes.GetEssentialVDofs [1]).getD i 0 ≠ 0) ∧
    (exampleForm.SetEssentialBC [1] (some [4, 5, 6]) 99).1.ess_vdofs.Pairwise (· < ·) ∧
    (exampleForm.SetEssentialBC [1] (some [4, 5, 6]) 99).1.ess_vdofs.Nodup ∧
    (exampleForm.SetEssentialBC [1] (some [4, 5, 6]) 99).1.ess_vdofs.length =
        (exampleForm.fes.GetEssentialVDofs [1]).countP (fun v => v ≠ 0) ∧
    (∀ i, i ∈ (exampleForm.SetEssentialBC [1] (some [4, 5, 6]) 99).1.ess_vdofs ↔
        i < exampleForm.fes.GetVSize ∧
          (exampleForm.fes.GetEssentialVDofs [1])[i]? ≠ some 0)) :=
  ⟨by decide, NonlinearForm.SetEssentialBC_ess_vdofs exampleForm [1] (some [4, 5, 6]) 99
    (by decide)⟩

/-! ### Linear system of the matrix-free form -/

/-- Writing `f i` at position `i` for every `i < n`. -/
theorem getElem?_foldl_set_range {α : Type} (f : Nat → α) (n : Nat) (v : List α) (j : Nat) :
    ((List.range n).foldl (fun v i => v.set i (f i)) v)[j]? =
      if j < n then (if j < v.length then some (f j) else none) else v[j]? := by
  induction n with
  | zero => simp
  | succ n ih =>
    have hlen : ((List.range n).foldl (fun v i => v.set i (f i)) v).length = v.length :=
      length_foldl_of_step _ (fun y b => by simp) _ v
    rw [List.range_succ, List.foldl_append, List.foldl_cons, List.foldl_nil,
      List.getElem?_set, ih, hlen]
    by_cases hnj : n = j
    · subst hnj
      simp
    · have h1 : (j < n + 1) = (j < n) := by
        apply propext
        constructor <;> intro h <;> omega
      simp only [hnj, if_false, h1]

/-- Writing `val i` at position `idx i` for every `i < n`, when the value written
depends on the position only. -/
theorem getElem?_foldl_set_idx {α : Type} (idx : Nat → Nat) (val : Nat → α) (F : Nat → α)
    (n : Nat) (h : ∀ i < n, val i = F (idx i)) (v : List α) (g : Nat) :
    ((List.range n).foldl (fun v i => v.set (idx i) (val i)) v)[g]? =
      if (∃ i < n, idx i = g) ∧ g < v.length then some (F g) else v[g]? := by
  induction n with
  | zero => simp
  | succ n ih =>
    have hlen : ((List.range n).foldl (fun v i => v.set (idx i) (val i)) v).length
        = v.length := length_foldl_of_step _ (fun y b => by simp) _ v
    rw [List.range_succ, List.foldl_append, List.foldl_cons, List.foldl_nil,
      List.getElem?_set, ih (fun i hi => h i (Nat.lt_succ_of_lt hi)), hlen]
    by_cases hg : idx n = g
    · have hex : ∃ i < n + 1, idx i = g := ⟨n, Nat.lt_succ_self n, hg⟩
      rw [if_pos hg, h n (Nat.lt_succ_self n), hg]
      by_cases hlt : g < v.length
      · simp [hlt, hex]
      · simp [hlt, List.getElem?_eq_none (Nat.le_of_not_lt hlt)]
    · rw [if_neg hg]
      have hiff : (∃ i < n + 1, idx i = g) ↔ ∃ i < n, idx i = g := by
        constructor
        · rintro ⟨i, hi, hig⟩
          have hin : i ≠ n := fun e => hg (e ▸ hig)
          exact ⟨i, by omega, hig⟩
        · rintro ⟨i, hi, hig⟩
          exact ⟨i, by omega, hig⟩
      simp only [hiff]

theorem exists_getD_eq_iff_mem (ess : List Nat) (g : Nat) :
    (∃ i < ess.length, ess.getD i 0 = g) ↔ g ∈ ess := by
  constructor
  · rintro ⟨i, hi, hig⟩
    rw [List.getD_eq_getElem _ _ hi] at hig
    exact hig ▸ List.getElem_mem hi
  · intro hg
    obtain ⟨i, hi, hig⟩ := List.getElem_of_mem hg
    exact ⟨i, hi, by rw [List.getD_eq_getElem _ _ hi]; exact hig⟩

/-- The extract-zero-restore sequence keeps the essential entries and zeroes the
others. -/
theorem ParPABilinearForm.getElem?_ResetX {α : Type} [Zero α] (ess : List Nat) (X : List α)
    (g : Nat) :
    (ParPABilinearForm.ResetX ess X)[g]? =
      if g ∈ ess ∧ g < X.length then some (X.getD g 0) else
        (List.replicate X.length (0 : α))[g]? := by
  unfold ParPABilinearForm.ResetX kVectorSetSubvector kVectorGetSubvector
  have h := getElem?_foldl_set_idx (fun i => ess.getD i 0)
    (fun i => ((List.range ess.length).foldl
      (fun v0 i => v0.set i (X.getD (ess.getD i 0) 0))
      (List.replicate ess.length (0 : α))).getD i 0)
    (fun d => X.getD d 0) ess.length
    (by
      intro i hi
      simp only [List.getD_eq_getElem?_getD]
      rw [getElem?_foldl_set_range (fun i => (X[ess[i]?.getD 0]?).getD 0)]
      simp [hi])
    (List.replicate X.length (0 : α)) g
  simp only [exists_getD_eq_iff_mem, List.length_replicate] at h
  exact h

/-- C6. In `ParPABilinearForm::FormLinearSystem` with `copy_interior = 0` and a non-empty
essential list of in-range indices, the vector `X` handed to the RHS elimination is
the selectively reset projected solution: it holds the projected value at every
essential index and 0 at every other index, so it is the zero vector only if the
projected solution is zero at every essential index. -/
theorem ParPABilinearForm.FormLinearSystem_selective_reset {α : Type} [Zero α]
    (form : ParPABilinearForm α) (ess : List Nat) (x b Xp Bp : List α)
    (hproj : form.Project x b = some (Xp, Bp)) (hne : ess ≠ [])
    (hrange : ∀ d ∈ ess, d < Xp.length) :
    form.FormLinearSystem ess x b 0 =
        some (⟨form.GetProlongationMatrix.isSome, ess⟩, ParPABilinearForm.ResetX ess Xp,
          ConstrainedOperator.EliminateRHS ⟨form.GetProlongationMatrix.isSome, ess⟩
            (ParPABilinearForm.ResetX ess Xp) Bp) ∧
    (ParPABilinearForm.ResetX ess Xp).length = Xp.length ∧
    (∀ d ∈ ess, (ParPABilinearForm.ResetX ess Xp)[d]? = Xp[d]?) ∧
    (∀ g, g < Xp.length → g ∉ ess → (ParPABilinearForm.ResetX ess Xp)[g]? = some 0) ∧
    (ParPABilinearForm.ResetX ess Xp = List.replicate Xp.length 0 ↔
      ∀ d ∈ ess, Xp[d]? = some 0) := by
  have hpos : ess.length > 0 := List.length_pos.mpr hne
  have hkeep : ∀ d ∈ ess, (ParPABilinearForm.ResetX ess Xp)[d]? = Xp[d]? := by
    intro d hd
    rw [ParPABilinearForm.getElem?_ResetX, if_pos ⟨hd, hrange d hd⟩,
      List.getD_eq_getElem _ _ (hrange d hd), List.getElem?_eq_getElem (hrange d hd)]
  have hzero : ∀ g, g < Xp.length → g ∉ ess →
      (ParPABilinearForm.ResetX ess Xp)[g]? = some 0 := by
    intro g hg hness
    rw [ParPABilinearForm.getElem?_ResetX, if_neg (fun h => hness h.1),
      List.getElem?_replicate, if_pos hg]
  refine ⟨?_, ?_, hkeep, hzero, ?_⟩
  · simp [ParPABilinearForm.FormLinearSystem, hproj, hpos]
  · unfold ParPABilinearForm.ResetX kVectorSetSubvector
    rw [length_foldl_of_step _ (fun y b => by simp), List.length_replicate]
  · constructor
    · intro hall d hd
      rw [← hkeep d hd, hall, List.getElem?_replicate, if_pos (hrange d hd)]
    · intro hall
      apply List.ext_getElem?
      intro g
      by_cases hg : g ∈ ess
      · rw [hkeep g hg, hall g hg, List.getElem?_replicate, if_pos (hrange g hg)]
      · rw [ParPABilinearForm.getElem?_ResetX, if_neg (fun h => hg h.1)]

/-- Witness of C6: the essential entries 4 and 6 survive and the interior entry is
reset. -/
theorem ParPABilinearForm.FormLinearSystem_selective_reset_witness :
    (examplePAForm.Project [4, 5, 6] [1, 1, 1] = some ([4, 5, 6], [1, 1, 1]) ∧
      [2, 0] ≠ [] ∧ (∀ d ∈ [2, 0], d < [(4 : Int), 5, 6].length) ∧
      examplePAForm.FormLinearSystem [2, 0] [4, 5, 6] [1, 1, 1] 0 =
        some (⟨false, [2, 0]⟩, [4, 0, 6], [0, 1, 0])) ∧
    (examplePAForm.FormLinearSystem [2, 0] [4, 5, 6] [1, 1, 1] 0 =
        some (⟨examplePAForm.GetProlongationMatrix.isSome, [2, 0]⟩,
          ParPABilinearForm.ResetX [2, 0] [4, 5, 6],
          ConstrainedOperator.EliminateRHS
            ⟨examplePAForm.GetProlongationMatrix.isSome, [2, 0]⟩
            (ParPABilinearForm.ResetX [2, 0] [4, 5, 6]) [1, 1, 1]) ∧
    (ParPABilinearForm.ResetX [2, 0] [(4 : Int), 5, 6]).length = [(4 : Int), 5, 6].length ∧
    (∀ d ∈ [2, 0], (ParPABilinearForm.ResetX [2, 0] [(4 : Int), 5, 6])[d]? =
        [(4 : Int), 5, 6][d]?) ∧
    (∀ g, g < [(4 : Int), 5, 6].length → g ∉ [2, 0] →
        (ParPABilinearForm.ResetX [2, 0] [(4 : Int), 5, 6])[g]? = some 0) ∧
    (ParPABilinearForm.ResetX [2, 0] [(4 : Int), 5, 6] =
        List.replicate [(4 : Int), 5, 6].length 0 ↔
      ∀ d ∈ [2, 0], [(4 : Int), 5, 6][d]? = some 0)) :=
  ⟨by decide, ParPABilinearForm.FormLinearSystem_selective_reset examplePAForm [2, 0]
    [4, 5, 6] [1, 1, 1] [4, 5, 6] [1, 1, 1] (by decide) (by decide) (by decide)⟩

/-- C7. Without a prolongation operator and with an empty essential list,
`ParPABilinearForm::FormLinearSystem` produces `X = x` and `B = b` for either value of
`copy_interior`, and `RecoverFEMSolution` on that `X` gives back `x`. -/
theorem ParPABilinearForm.FormLinearSystem_RecoverFEMSolution_roundtrip {α : Type} [Zero α]
    (form : ParPABilinearForm α) (x b : List α) (copy_interior : Int)
    (hP : form.GetProlongationMatrix = none) :
    form.FormLinearSystem [] x b copy_interior = some (⟨false, []⟩, x, b) ∧
    ∀ A X B, form.FormLinearSystem [] x b copy_interior = some (A, X, B) →
      form.RecoverFEMSolution X b = x := by
  have h : form.FormLinearSystem [] x b copy_interior = some (⟨false, []⟩, x, b) := by
    simp [ParPABilinearForm.FormLinearSystem, ParPABilinearForm.Project, hP,
      ConstrainedOperator.EliminateRHS]
  refine ⟨h, fun A X B hABX => ?_⟩
  rw [h] at hABX
  simp only [Option.some.injEq, Prod.mk.injEq] at hABX
  rw [← hABX.2.1]
  simp [ParPABilinearForm.RecoverFEMSolution, hP]

/-- Witness of C7 on the example form, with `copy_interior = 0`. -/
theorem ParPABilinearForm.FormLinearSystem_RecoverFEMSolution_roundtrip_witness :
    (examplePAForm.GetProlongationMatrix = none ∧
      examplePAForm.RecoverFEMSolution [4, 5, 6] [1, 1, 1] = [4, 5, 6]) ∧
    (examplePAForm.FormLinearSystem [] [4, 5, 6] [1, 1, 1] 0 =
        some (⟨false, []⟩, [4, 5, 6], [1, 1, 1]) ∧
    ∀ A X B, examplePAForm.FormLinearSystem [] [4, 5, 6] [1, 1, 1] 0 = some (A, X, B) →
      examplePAForm.RecoverFEMSolution X [1, 1, 1] = [4, 5, 6]) :=
  ⟨⟨rfl, by decide⟩, ParPABilinearForm.FormLinearSystem_RecoverFEMSolution_roundtrip
    examplePAForm [4, 5, 6] [1, 1, 1] 0 rfl⟩

/-- C8, as stated, fails: with assertions enabled and exactly one integrator,
`MultTranspose` stops at its leading `assert(false)` and yields no `y`, in particular
not the gather, kernel, scatter result. -/
theorem ParPABilinearForm.MultTranspose_counterexample :
    examplePAForm.integrators.length = 1 ∧
    ParPABilinearForm.MultTranspose false examplePAForm [1, 2, 3] = none ∧
    ParPABilinearForm.MultTranspose false examplePAForm [1, 2, 3] ≠
      some (examplePAForm.kfes.LocalToGlobal
        (examplePAForm.integrators.foldl
          (fun localY k => k.MultTransposeAdd (examplePAForm.kfes.GlobalToLocal [1, 2, 3]) localY)
          (List.replicate examplePAForm.localYSize 0))) := by
  decide

/-- C8, amended. With assertions enabled `MultTranspose` fails at its leading
`assert(false)` for every form and input. Only with assertions compiled out does it,
for exactly one integrator `k`, yield `LocalToGlobal` of the zero-initialised buffer
after `k.MultTransposeAdd` on `GlobalToLocal(x)`, which is what `Mult` yields with
`MultAdd` in place of `MultTransposeAdd`. -/
theorem ParPABilinearForm.MultTranspose_contract {α : Type} [Zero α]
    (form : ParPABilinearForm α) (x : List α) :
    ParPABilinearForm.MultTranspose false form x = none ∧
    ∀ k, form.integrators = [k] →
      ParPABilinearForm.MultTranspose true form x =
        some (form.kfes.LocalToGlobal
          (k.MultTransposeAdd (form.kfes.GlobalToLocal x)
            (List.replicate form.localYSize 0))) ∧
      ∀ ndebug, ParPABilinearForm.Mult ndebug form x =
        some (form.kfes.LocalToGlobal
          (k.MultAdd (form.kfes.GlobalToLocal x) (List.replicate form.localYSize 0))) := by
  refine ⟨rfl, fun k hk => ⟨?_, fun ndebug => ?_⟩⟩
  · simp [ParPABilinearForm.MultTranspose, cassert, hk]
  · simp [ParPABilinearForm.Mult, cassert, hk]

/-- Witness of the amended C8 on the example form and its only integrator. -/
theorem ParPABilinearForm.MultTranspose_contract_witness :
    (ParPABilinearForm.MultTranspose true examplePAForm [1, 2, 3] = some [2, 4, 6] ∧
      ParPABilinearForm.Mult false examplePAForm [1, 2, 3] = some [1, 2, 3]) ∧
    (ParPABilinearForm.MultTranspose false examplePAForm [1, 2, 3] = none ∧
    ∀ k, examplePAForm.integrators = [k] →
      ParPABilinearForm.MultTranspose true examplePAForm [1, 2, 3] =
        some (examplePAForm.kfes.LocalToGlobal
          (k.MultTransposeAdd (examplePAForm.kfes.GlobalToLocal [1, 2, 3])
            (List.replicate examplePAForm.localYSize 0))) ∧
      ∀ ndebug, ParPABilinearForm.Mult ndebug examplePAForm [1, 2, 3] =
        some (examplePAForm.kfes.LocalToGlobal
          (k.MultAdd (examplePAForm.kfes.GlobalToLocal [1, 2, 3])
            (List.replicate examplePAForm.localYSize 0)))) :=
  ⟨by decide, ParPABilinearForm.MultTranspose_contract examplePAForm [1, 2, 3]⟩

/-! ### Boundary-face pass of the mixed form -/

theorem nat_lor_eq_zero (m n : Nat) : m ||| n = 0 ↔ m = 0 ∧ n = 0 := by
  constructor
  · intro h
    constructor
    · apply Nat.eq_of_testBit_eq
      intro i
      have := congrArg (fun k => k.testBit i) h
      simp [Nat.testBit_or] at this
      simp [this.1]
    · apply Nat.eq_of_testBit_eq
      intro i
      have := congrArg (fun k => k.testBit i) h
      simp [Nat.testBit_or] at this
      simp [this.2]
  · rintro ⟨rfl, rfl⟩
    rfl

theorem int_lor_eq_zero (m n : Int) : Int.lor m n = 0 ↔ m = 0 ∧ n = 0 := by
  cases m <;> cases n <;> simp [Int.lor]
  rename_i a b
  have := nat_lor_eq_zero a b
  constructor
  · intro h
    have h2 : a ||| b = 0 := by exact_mod_cast h
    exact this.mp h2
  · intro h
    have := this.mpr h
    exact_mod_cast this

theorem MixedNonlinearForm.length_maskLoop (ffi_marker : List (Option (List Int)))
    (ks : List Nat) : ∀ m : List Int,
    (MixedNonlinearForm.maskLoop ffi_marker ks m).length = m.length := by
  induction ks with
  | nil => intro m; rfl
  | cons k ks ih =>
    intro m
    unfold MixedNonlinearForm.maskLoop
    split
    · simp
    · rw [ih]; simp

/-- The mask is non-zero at `a` exactly when it was so before the loop, or an
integrator of the loop has no marker, or one has a marker that is non-zero at `a`. -/
theorem MixedNonlinearForm.maskLoop_ne_zero (ffi_marker : List (Option (List Int)))
    (ks : List Nat) : ∀ (m : List Int) (a : Nat), a < m.length →
    ((MixedNonlinearForm.maskLoop ffi_marker ks m).getD a 0 ≠ 0 ↔
      m.getD a 0 ≠ 0 ∨ (∃ k ∈ ks, ffi_marker.getD k none = none) ∨
        ∃ k ∈ ks, ∃ bm, ffi_marker.getD k none = some bm ∧ bm.getD a 0 ≠ 0) := by
  induction ks with
  | nil => intro m a _; simp [MixedNonlinearForm.maskLoop]
  | cons k ks ih =>
    intro m a ha
    unfold MixedNonlinearForm.maskLoop
    split
    · rename_i hk
      have h1 : (List.replicate m.length (1 : Int)).getD a 0 ≠ 0 := by
        simp [List.getD_eq_getElem?_getD, List.getElem?_replicate, ha]
      simp only [h1, true_iff, ne_eq, not_false_eq_true]
      exact Or.inr (Or.inl ⟨k, List.mem_cons_self _ _, hk⟩)
    · rename_i bm hk
      rw [ih _ a (by simpa using ha)]
      have hor : ((List.range m.length).map
          (fun i => Int.lor (m.getD i 0) (bm.getD i 0))).getD a 0 ≠ 0 ↔
          m.getD a 0 ≠ 0 ∨ bm.getD a 0 ≠ 0 := by
        have : ((List.range m.length).map
            (fun i => Int.lor (m.getD i 0) (bm.getD i 0))).getD a 0 =
            Int.lor (m.getD a 0) (bm.getD a 0) := by
          simp [List.getD_eq_getElem?_getD, List.getElem?_range ha]
        rw [this, ne_eq, int_lor_eq_zero]
        tauto
      rw [hor]
      constructor
      · rintro ((h | h) | ⟨k2, hk2, h⟩ | ⟨k2, hk2, b2, h⟩)
        · exact Or.inl h
        · exact Or.inr (Or.inr ⟨k, List.mem_cons_self _ _, bm, hk, h⟩)
        · exact Or.inr (Or.inl ⟨k2, List.mem_cons_of_mem _ hk2, h⟩)
        · exact Or.inr (Or.inr ⟨k2, List.mem_cons_of_mem _ hk2, b2, h⟩)
      · rintro (h | ⟨k2, hk2, h⟩ | ⟨k2, hk2, b2, h1, h2⟩)
        · exact Or.inl (Or.inl h)
        · rcases List.mem_cons.mp hk2 with e | hmem
          · subst e; rw [hk] at h; cases h
          · exact Or.inr (Or.inl ⟨k2, hmem, h⟩)
        · rcases List.mem_cons.mp hk2 with e | hmem
          · subst e
            rw [hk] at h1
            cases h1
            exact Or.inl (Or.inr h2)
          · exact Or.inr (Or.inr ⟨k2, hmem, b2, h1, h2⟩)

theorem foldl_append_events {β ε : Type} (ev : β → List ε) (l : List β) :
    ∀ st : List ε, l.foldl (fun st b => st ++ ev b) st = st ++ l.flatMap ev := by
  induction l with
  | nil => intro st; simp
  | cons b bs ih => intro st; rw [List.foldl_cons, ih, List.flatMap_cons, List.append_assoc]

/-- The trace of the boundary-face pass, element by element. -/
theorem MixedNonlinearForm.bdrFaceTrace_eq (mesh : Mesh) (nffi : Nat)
    (ffi_marker : List (Option (List Int))) (h : nffi ≠ 0) :
    MixedNonlinearForm.bdrFaceTrace mesh nffi ffi_marker =
      (List.range mesh.GetNBE).flatMap (fun i =>
        if (MixedNonlinearForm.bdrAttrMarker mesh nffi ffi_marker).getD
            (mesh.GetBdrAttribute i - 1) 0 = 0 then []
        else
          match mesh.GetBdrFaceTransformations i with
          | none => []
          | some _ =>
            FaceEvent.gather i :: (List.range nffi).flatMap (fun k =>
              match ffi_marker.getD k none with
              | some marker =>
                if marker.getD (mesh.GetBdrAttribute i - 1) 0 = 0 then []
                else [FaceEvent.eval i k]
              | none => [FaceEvent.eval i k])) := by
  unfold MixedNonlinearForm.bdrFaceTrace MixedNonlinearForm.bdrFaceLoop
  rw [if_pos h]
  have hinner : ∀ (i : Nat),
      (fun (st : List FaceEvent) (k : Nat) =>
        match ffi_marker.getD k none with
        | some marker =>
          if marker.getD (mesh.GetBdrAttribute i - 1) 0 = 0 then st
          else st ++ [FaceEvent.eval i k]
        | none => st ++ [FaceEvent.eval i k]) =
      (fun st k => st ++
        (match ffi_marker.getD k none with
        | some marker =>
          if marker.getD (mesh.GetBdrAttribute i - 1) 0 = 0 then []
          else [FaceEvent.eval i k]
        | none => [FaceEvent.eval i k])) := by
    intro i
    funext st k
    split
    · split <;> simp
    · rfl
  simp only [hinner, foldl_append_events]
  have houter :
      (fun (st : List FaceEvent) (i : Nat) =>
        if (MixedNonlinearForm.bdrAttrMarker mesh nffi ffi_marker).getD
            (mesh.GetBdrAttribute i - 1) 0 = 0 then st
        else
          match mesh.GetBdrFaceTransformations i with
          | none => st
          | some _ =>
            st ++ [FaceEvent.gather i] ++ (List.range nffi).flatMap (fun k =>
              match ffi_marker.getD k none with
              | some marker =>
                if marker.getD (mesh.GetBdrAttribute i - 1) 0 = 0 then []
                else [FaceEvent.eval i k]
              | none => [FaceEvent.eval i k])) =
      (fun st i => st ++
        (if (MixedNonlinearForm.bdrAttrMarker mesh nffi ffi_marker).getD
            (mesh.GetBdrAttribute i - 1) 0 = 0 then []
        else
          match mesh.GetBdrFaceTransformations i with
          | none => []
          | some _ =>
            FaceEvent.gather i :: (List.range nffi).flatMap (fun k =>
              match ffi_marker.getD k none with
              | some marker =>
                if marker.getD (mesh.GetBdrAttribute i - 1) 0 = 0 then []
                else [FaceEvent.eval i k]
              | none => [FaceEvent.eval i k]))) := by
    funext st i
    split
    · simp
    · split <;> simp
  rw [houter, foldl_append_events, List.nil_append]

theorem getD_none_eq_none_iff (ffi_marker : List (Option (List Int))) (k : Nat)
    (hk : k < ffi_marker.length) :
    ffi_marker.getD k none = none ↔ ffi_marker[k]? = some none := by
  rw [List.getD_eq_getElem _ _ hk, List.getElem?_eq_getElem hk]
  simp

theorem getD_none_eq_some_iff (ffi_marker : List (Option (List Int))) (k : Nat)
    (bm : List Int) :
    ffi_marker.getD k none = some bm ↔ ffi_marker[k]? = some (some bm) := by
  by_cases hk : k < ffi_marker.length
  · rw [List.getD_eq_getElem _ _ hk, List.getElem?_eq_getElem hk]
    simp
  · rw [List.getD_eq_default _ _ (Nat.le_of_not_lt hk),
      List.getElem?_eq_none (Nat.le_of_not_lt hk)]
    simp

/-- Membership in the trace of the boundary-face pass. -/
theorem MixedNonlinearForm.mem_bdrFaceTrace (mesh : Mesh)
    (ffi_marker : List (Option (List Int))) (e : FaceEvent) :
    e ∈ MixedNonlinearForm.bdrFaceTrace mesh ffi_marker.length ffi_marker ↔
      ∃ i, i < mesh.GetNBE ∧
        (MixedNonlinearForm.bdrAttrMarker mesh ffi_marker.length ffi_marker).getD
          (mesh.GetBdrAttribute i - 1) 0 ≠ 0 ∧
        (mesh.GetBdrFaceTransformations i).isSome ∧
        (e = FaceEvent.gather i ∨ ∃ k, e = FaceEvent.eval i k ∧
          (ffi_marker[k]? = some none ∨
            ∃ m, ffi_marker[k]? = some (some m) ∧
              m.getD (mesh.GetBdrAttribute i - 1) 0 ≠ 0)) := by
  by_cases hn : ffi_marker.length = 0
  · have hnil : ffi_marker = [] := List.length_eq_zero.mp hn
    subst hnil
    simp [MixedNonlinearForm.bdrFaceTrace, MixedNonlinearForm.bdrFaceLoop,
      MixedNonlinearForm.bdrAttrMarker, MixedNonlinearForm.maskLoop,
      List.getD_eq_getElem?_getD, List.getElem?_replicate]
    intro i _ h
    split at h <;> simp at h
  · rw [MixedNonlinearForm.bdrFaceTrace_eq mesh _ _ hn, List.mem_flatMap]
    constructor
    · rintro ⟨i, hi, hmem⟩
      refine ⟨i, List.mem_range.mp hi, ?_⟩
      split at hmem
      · cases hmem
      · rename_i hmask
        refine ⟨hmask, ?_⟩
        split at hmem
        · cases hmem
        · rename_i t ht
          refine ⟨by rw [ht]; rfl, ?_⟩
          rcases List.mem_cons.mp hmem with h | h
          · exact Or.inl h
          · right
            obtain ⟨k, hk, hke⟩ := List.mem_flatMap.mp h
            have hklt : k < ffi_marker.length := List.mem_range.mp hk
            refine ⟨k, ?_⟩
            split at hke
            · rename_i marker hm
              split at hke
              · cases hke
              · rename_i hz
                refine ⟨by simpa using hke, Or.inr ⟨marker, ?_, hz⟩⟩
                exact (getD_none_eq_some_iff _ _ _).mp hm
            · rename_i hm
              exact ⟨by simpa using hke, Or.inl ((getD_none_eq_none_iff _ _ hklt).mp hm)⟩
    · rintro ⟨i, hi, hmask, htr, he⟩
      refine ⟨i, List.mem_range.mpr hi, ?_⟩
      rw [if_neg hmask]
      obtain ⟨t, ht⟩ := Option.isSome_iff_exists.mp htr
      rw [ht]
      rcases he with he | ⟨k, he, hc⟩
      · subst he
        exact List.mem_cons_self _ _
      · subst he
        apply List.mem_cons_of_mem
        have hklt : k < ffi_marker.length := by
          rcases hc with h | ⟨m, h, _⟩
          · exact (List.getElem?_eq_some_iff.mp h).1
          · exact (List.getElem?_eq_some_iff.mp h).1
        refine List.mem_flatMap.mpr ⟨k, List.mem_range.mpr hklt, ?_⟩
        rcases hc with h | ⟨m, h, hz⟩
        · rw [(getD_none_eq_none_iff _ _ hklt).mpr h]
          simp
        · rw [(getD_none_eq_some_iff _ _ _).mpr h]
          simp only [if_neg hz, List.mem_singleton]

/-- C9, as stated, fails: boundary element 0 of the example mesh has attribute 1, the
mask is non-zero there and so is the marker of the only integrator, yet the element
has no face transformation, so it is neither gathered nor is the integrator
evaluated on it. -/
theorem MixedNonlinearForm.bdrFace_counterexample :
    (exampleMixedForm.ffi.length = exampleMixedForm.ffi_marker.length ∧
      exampleMixedForm.ffi_marker = [some [1, 1]] ∧
      exampleMesh.bdrAttrMarkerSize = 2 ∧ exampleMesh.GetBdrAttribute 0 = 1) ∧
    (MixedNonlinearForm.bdrAttrMarker exampleMesh exampleMixedForm.ffi.length
        exampleMixedForm.ffi_marker).getD (exampleMesh.GetBdrAttribute 0 - 1) 0 ≠ 0 ∧
    FaceEvent.gather 0 ∉ MixedNonlinearForm.bdrFaceTrace exampleMesh
        exampleMixedForm.ffi.length exampleMixedForm.ffi_marker ∧
    FaceEvent.eval 0 0 ∉ MixedNonlinearForm.bdrFaceTrace exampleMesh
        exampleMixedForm.ffi.length exampleMixedForm.ffi_marker ∧
    MixedNonlinearForm.bdrFaceTrace exampleMesh exampleMixedForm.ffi.length
        exampleMixedForm.ffi_marker = [FaceEvent.gather 1, FaceEvent.eval 1 0] := by
  decide

/-- C9, amended. In the boundary-face pass of `MixedNonlinearForm::Mult` the mask
`bdr_attr_marker` is non-zero at a position `a` exactly when some registered
integrator has no marker or some marker is non-zero at `a`; a boundary element `i`
with attribute `a` is processed exactly when the mask is non-zero at `a-1` and the
mesh returns a face transformation for it, and integrator `k` is then evaluated on
it exactly when `k` has no marker or its marker is non-zero at `a-1`. -/
theorem MixedNonlinearForm.bdrFace_mask_and_dispatch {α : Type}
    (F : MixedNonlinearForm α) (mesh : Mesh)
    (hffi : F.ffi.length = F.ffi_marker.length)
    (_hsize : ∀ om ∈ F.ffi_marker, ∀ m ∈ om, m.length = mesh.bdrAttrMarkerSize)
    (_hattr : ∀ i, i < mesh.GetNBE →
      1 ≤ mesh.GetBdrAttribute i ∧ mesh.GetBdrAttribute i ≤ mesh.bdrAttrMarkerSize) :
    (∀ a, a < mesh.bdrAttrMarkerSize →
      ((MixedNonlinearForm.bdrAttrMarker mesh F.ffi.length F.ffi_marker).getD a 0 ≠ 0 ↔
        (∃ k : Nat, F.ffi_marker[k]? = some none) ∨
          ∃ (k : Nat) (m : List Int), F.ffi_marker[k]? = some (some m) ∧ m.getD a 0 ≠ 0)) ∧
    (∀ i, FaceEvent.gather i ∈
        MixedNonlinearForm.bdrFaceTrace mesh F.ffi.length F.ffi_marker ↔
      i < mesh.GetNBE ∧
        (MixedNonlinearForm.bdrAttrMarker mesh F.ffi.length F.ffi_marker).getD
          (mesh.GetBdrAttribute i - 1) 0 ≠ 0 ∧
        (mesh.GetBdrFaceTransformations i).isSome) ∧
    (∀ i k, FaceEvent.eval i k ∈
        MixedNonlinearForm.bdrFaceTrace mesh F.ffi.length F.ffi_marker ↔
      FaceEvent.gather i ∈
          MixedNonlinearForm.bdrFaceTrace mesh F.ffi.length F.ffi_marker ∧
        (F.ffi_marker[k]? = some none ∨
          ∃ m, F.ffi_marker[k]? = some (some m) ∧
            m.getD (mesh.GetBdrAttribute i - 1) 0 ≠ 0)) := by
  rw [hffi]
  have hgather : ∀ i, FaceEvent.gather i ∈
        MixedNonlinearForm.bdrFaceTrace mesh F.ffi_marker.length F.ffi_marker ↔
      i < mesh.GetNBE ∧
        (MixedNonlinearForm.bdrAttrMarker mesh F.ffi_marker.length F.ffi_marker).getD
          (mesh.GetBdrAttribute i - 1) 0 ≠ 0 ∧
        (mesh.GetBdrFaceTransformations i).isSome := by
    intro i
    rw [MixedNonlinearForm.mem_bdrFaceTrace]
    constructor
    · rintro ⟨i2, h1, h2, h3, h4 | ⟨k, h4, _⟩⟩
      · cases h4
        exact ⟨h1, h2, h3⟩
      · cases h4
    · rintro ⟨h1, h2, h3⟩
      exact ⟨i, h1, h2, h3, Or.inl rfl⟩
  refine ⟨?_, hgather, ?_⟩
  · intro a ha
    unfold MixedNonlinearForm.bdrAttrMarker
    rw [MixedNonlinearForm.maskLoop_ne_zero _ _ _ a (by simpa using ha)]
    have h0 : ¬ (List.replicate mesh.bdrAttrMarkerSize (0 : Int)).getD a 0 ≠ 0 := by
      simp [List.getD_eq_getElem?_getD, List.getElem?_replicate, ha]
    constructor
    · rintro (h | ⟨k, hk, h⟩ | ⟨k, _, bm, h1, h2⟩)
      · exact absurd h h0
      · exact Or.inl ⟨k, (getD_none_eq_none_iff _ _ (List.mem_range.mp hk)).mp h⟩
      · exact Or.inr ⟨k, bm, (getD_none_eq_some_iff _ _ _).mp h1, h2⟩
    · rintro (⟨k, h⟩ | ⟨k, m, h1, h2⟩)
      · have hk : k < F.ffi_marker.length := (List.getElem?_eq_some_iff.mp h).1
        exact Or.inr (Or.inl ⟨k, List.mem_range.mpr hk,
          (getD_none_eq_none_iff _ _ hk).mpr h⟩)
      · have hk : k < F.ffi_marker.length := (List.getElem?_eq_some_iff.mp h1).1
        exact Or.inr (Or.inr ⟨k, List.mem_range.mpr hk, m,
          (getD_none_eq_some_iff _ _ _).mpr h1, h2⟩)
  · intro i k
    rw [hgather, MixedNonlinearForm.mem_bdrFaceTrace]
    constructor
    · rintro ⟨i2, h1, h2, h3, h4 | ⟨k2, h4, h5⟩⟩
      · cases h4
      · cases h4
        exact ⟨⟨h1, h2, h3⟩, h5⟩
    · rintro ⟨⟨h1, h2, h3⟩, h5⟩
      exact ⟨i, h1, h2, h3, Or.inr ⟨k, rfl, h5⟩⟩

/-- Witness of the amended C9 on the example mesh and the example mixed form. -/
theorem MixedNonlinearForm.bdrFace_mask_and_dispatch_witness :
    (∀ a, a < exampleMesh.bdrAttrMarkerSize →
      ((MixedNonlinearForm.bdrAttrMarker exampleMesh exampleMixedForm.ffi.length
          exampleMixedForm.ffi_marker).getD a 0 ≠ 0 ↔
        (∃ k : Nat, exampleMixedForm.ffi_marker[k]? = some none) ∨
          ∃ (k : Nat) (m : List Int), exampleMixedForm.ffi_marker[k]? = some (some m) ∧
            m.getD a 0 ≠ 0)) ∧
    (∀ i, FaceEvent.gather i ∈ MixedNonlinearForm.bdrFaceTrace exampleMesh
        exampleMixedForm.ffi.length exampleMixedForm.ffi_marker ↔
      i < exampleMesh.GetNBE ∧
        (MixedNonlinearForm.bdrAttrMarker exampleMesh exampleMixedForm.ffi.length
          exampleMixedForm.ffi_marker).getD (exampleMesh.GetBdrAttribute i - 1) 0 ≠ 0 ∧
        (exampleMesh.GetBdrFaceTransformations i).isSome) ∧
    (∀ i k, FaceEvent.eval i k ∈ MixedNonlinearForm.bdrFaceTrace exampleMesh
        exampleMixedForm.ffi.length exampleMixedForm.ffi_marker ↔
      FaceEvent.gather i ∈ MixedNonlinearForm.bdrFaceTrace exampleMesh
          exampleMixedForm.ffi.length exampleMixedForm.ffi_marker ∧
        (exampleMixedForm.ffi_marker[k]? = some none ∨
          ∃ m, exampleMixedForm.ffi_marker[k]? = some (some m) ∧
            m.getD (exampleMesh.GetBdrAttribute i - 1) 0 ≠ 0)) :=
  MixedNonlinearForm.bdrFace_mask_and_dispatch exampleMixedForm exampleMesh
    (by decide) (by decide) (by decide)

/-! ### Elimination in the gradient of the mixed form -/

/-- C10 fails on the code. The bare example form has one field, the essential DOF 0 and
no integrator, so the scratch list `vdofs[0]` is empty when the elimination starts.
On the form whose blocks are still null nothing is eliminated and the
finalization test dereferences `Grads(0,0)`. With the block allocated the elimination
loop, bounded by `vdofs[0].Size()`, runs zero times: entry `(0,0)` keeps its value 5
and entry `(0,1)` its value 7, and the block is never finalized. With a scratch list
longer than the essential list the loop reads `ess_vdofs[0][1]` past the end. The
elimination loop of the single-field form on the same block leaves 1 at `(0,0)`. -/
theorem MixedNonlinearForm.GradEliminate_misses_essential :
    (exampleBareMixedForm.ess_vdofs = [[0]] ∧ exampleBareMixedForm.fes.length = 1 ∧
      exampleBareMixedForm.dfi.length = 0 ∧ exampleBareMixedForm.bfi.length = 0 ∧
      exampleBareMixedForm.ffi.length = 0) ∧
    (exampleBareMixedForm.GradEliminate [[]]).isSome = false ∧
    (exampleMixedFormAllocated.GradEliminate [[]]).map
        (fun G => (G 0 0).map (fun M => (M.entry 0 0, M.entry 0 1, M.finalized))) =
      some (some (5, 7, false)) ∧
    (exampleMixedFormAllocated.GradEliminate [[0, 1]]).isSome = false ∧
    (exampleMixedFormAllocated.Grads 0 0).map
        (fun M =>
          (([0] : List Nat).foldl (fun G d => G.EliminateRowCol d) M).entry 0 0) =
      some 1 := by
  decide

/-! ### Allocation of the blocks of the mixed form -/

/-- On a form whose block `(0,0)` is null the allocation step changes nothing. -/
theorem MixedNonlinearForm.GradInit_of_null {α : Type} [Zero α] (F : MixedNonlinearForm α)
    (h : F.Grads 0 0 = none) : F.GradInit = F.Grads := by
  unfold MixedNonlinearForm.GradInit
  rw [h]

/-- On a form without fields, which is what line 161 of the constructor leaves, the
allocation step changes nothing either: its loops run zero times. -/
theorem MixedNonlinearForm.GradInit_of_no_fields {α : Type} [Zero α]
    (F : MixedNonlinearForm α) (h : F.fes = []) : F.GradInit = F.Grads := by
  unfold MixedNonlinearForm.GradInit
  split <;> simp [h]

/-- C11 fails on the code. On the bare example form every block is null, as before a
first call; the allocation step of `MixedNonlinearForm::GetGradient` is guarded by
`Grads(0,0) != NULL`, so it is skipped and block `(0,0)` is still null when the
passes start. Only on a form whose block `(0,0)` is already allocated is the block
replaced by an empty, unfinalized matrix of size `VSize(0) x VSize(0)`. -/
theorem MixedNonlinearForm.GradInit_leaves_null :
    (exampleBareMixedForm.fes.length = 1 ∧
      (exampleBareMixedForm.Grads 0 0).isSome = false) ∧
    (exampleBareMixedForm.GradInit 0 0).isSome = false ∧
    (exampleMixedFormAllocated.Grads 0 0).map
        (fun M => (M.height, M.width, M.entry 0 0, M.entry 1 1, M.finalized)) =
      some (2, 2, 5, 8, false) ∧
    (exampleMixedFormAllocated.GradInit 0 0).map
        (fun M => (M.height, M.width, M.entry 0 0, M.entry 1 1, M.finalized)) =
      some (2, 2, 0, 0, false) := by
  decide

/-! ### Reduction kernel -/

/-- The sequential loop of `vector_dot` over the first `n` indices is the sum of the
products. -/
theorem foldl_dot_eq_sum {α : Type} [Semiring α] (vec1 vec2 : List α) (n : Nat) :
    (List.range n).foldl (fun dot i => dot + vec1.getD i 0 * vec2.getD i 0) 0 =
      Finset.sum (Finset.range n) (fun i => vec1.getD i 0 * vec2.getD i 0) := by
  induction n with
  | zero => simp
  | succ n ih =>
    rw [List.range_succ, List.foldl_append, List.foldl_cons, List.foldl_nil, ih,
      Finset.sum_range_succ]

/-- C12. With the accelerator flag off, for `N >= 0` and sequences with at least `N`
entries, `vector_dot(N, vec1, vec2)` is the sum over `i < N` of `vec1[i] * vec2[i]`,
accumulated from 0 in index order (exact arithmetic); it is 0 for `N = 0`,
`vec1[0] * vec2[0]` for `N = 1`, and 0 for orthogonal vectors, in particular when
at every index one of the two entries is 0, as for two different unit vectors. -/
theorem vector_dot_fallback {α : Type} [Semiring α]
    (cub_vector_dot : Int → List α → List α → α) (N : Int) (vec1 vec2 : List α)
    (_hN : 0 ≤ N) (_h1 : N.toNat ≤ vec1.length) (_h2 : N.toNat ≤ vec2.length) :
    vector_dot false cub_vector_dot N vec1 vec2 =
        Finset.sum (Finset.range N.toNat) (fun i => vec1.getD i 0 * vec2.getD i 0) ∧
    vector_dot false cub_vector_dot N vec1 vec2 =
        ((List.range N.toNat).map (fun i => vec1.getD i 0 * vec2.getD i 0)).foldl
          (· + ·) 0 ∧
    (N = 0 → vector_dot false cub_vector_dot N vec1 vec2 = 0) ∧
    (N = 1 → vector_dot false cub_vector_dot N vec1 vec2 =
        vec1.getD 0 0 * vec2.getD 0 0) ∧
    (Finset.sum (Finset.range N.toNat) (fun i => vec1.getD i 0 * vec2.getD i 0) = 0 →
        vector_dot false cub_vector_dot N vec1 vec2 = 0) ∧
    ((∀ i, i < N.toNat → vec1.getD i 0 = 0 ∨ vec2.getD i 0 = 0) →
        vector_dot false cub_vector_dot N vec1 vec2 = 0) := by
  have hsum : vector_dot false cub_vector_dot N vec1 vec2 =
      Finset.sum (Finset.range N.toNat) (fun i => vec1.getD i 0 * vec2.getD i 0) := by
    simp only [vector_dot, Bool.false_eq_true, if_false]
    exact foldl_dot_eq_sum vec1 vec2 N.toNat
  refine ⟨hsum, ?_, ?_, ?_, ?_, ?_⟩
  · simp only [vector_dot, Bool.false_eq_true, if_false, List.foldl_map]
  · intro h0
    rw [hsum, h0]
    simp
  · intro h1
    rw [hsum, h1]
    simp
  · intro h
    rw [hsum, h]
  · intro h
    rw [hsum]
    apply Finset.sum_eq_zero
    intro i hi
    rcases h i (Finset.mem_range.mp hi) with h0 | h0
    · rw [h0, zero_mul]
    · rw [h0, mul_zero]

/-- Witness of C12 on the unit vectors `(1, 0)` and `(0, 1)`, with the values of two
further calls. -/
theorem vector_dot_fallback_witness :
    ((0 : Int) ≤ 2 ∧
      vector_dot false (fun _ _ _ => 0) 3 [(1 : Int), 2, 3] [4, 5, 6] = 32 ∧
      vector_dot false (fun _ _ _ => 0) 1 [(7 : Int), 2] [3, 5] = 21 ∧
      vector_dot false (fun _ _ _ => 0) 0 [(7 : Int), 2] [3, 5] = 0 ∧
      vector_dot false (fun _ _ _ => 0) 2 [(1 : Int), 0] [0, 1] = 0) ∧
    (vector_dot false (fun _ _ _ => 0) 2 [(1 : Int), 0] [0, 1] =
        Finset.sum (Finset.range (2 : Int).toNat)
          (fun i => [(1 : Int), 0].getD i 0 * [(0 : Int), 1].getD i 0) ∧
    vector_dot false (fun _ _ _ => 0) 2 [(1 : Int), 0] [0, 1] =
        ((List.range (2 : Int).toNat).map
          (fun i => [(1 : Int), 0].getD i 0 * [(0 : Int), 1].getD i 0)).foldl (· + ·) 0 ∧
    ((2 : Int) = 0 → vector_dot false (fun _ _ _ => 0) 2 [(1 : Int), 0] [0, 1] = 0) ∧
    ((2 : Int) = 1 → vector_dot false (fun _ _ _ => 0) 2 [(1 : Int), 0] [0, 1] =
        [(1 : Int), 0].getD 0 0 * [(0 : Int), 1].getD 0 0) ∧
    (Finset.sum (Finset.range (2 : Int).toNat)
        (fun i => [(1 : Int), 0].getD i 0 * [(0 : Int), 1].getD i 0) = 0 →
        vector_dot false (fun _ _ _ => 0) 2 [(1 : Int), 0] [0, 1] = 0) ∧
    ((∀ i, i < (2 : Int).toNat →
        [(1 : Int), 0].getD i 0 = 0 ∨ [(0 : Int), 1].getD i 0 = 0) →
        vector_dot false (fun _ _ _ => 0) 2 [(1 : Int), 0] [0, 1] = 0)) :=
  ⟨by decide, vector_dot_fallback (fun _ _ _ => 0) 2 [1, 0] [0, 1]
    (by decide) (by decide) (by decide)⟩

/-! ### DOF table -/

/-- C13, as stated, fails: the example table has 2 rows, the indices 5 and -1 are
outside `[0, 2)`, and `RowSize` and `GetRow` return values there instead of failing:
they read whatever lies behind the pointers. -/
theorem ktable.RowSize_GetRow_counterexample :
    (exampleTable.size = 2 ∧ ¬ ((0 : Int) ≤ 5 ∧ (5 : Int) < exampleTable.size) ∧
      ¬ ((0 : Int) ≤ -1 ∧ (-1 : Int) < exampleTable.size)) ∧
    exampleTable.RowSize 5 = some 0 ∧ exampleTable.GetRow 5 = some 77 ∧
    exampleTable.RowSize (-1) = some (-77) ∧ exampleTable.GetRow (-1) = some 77 ∧
    exampleTable.RowSize 2 = some 74 := by
  decide

/-- C13, amended. For every table and every index `i`, inside the range or not,
`RowSize(i)` returns `I[i+1] - I[i]` and `GetRow(i)` returns the pointer into `J` at
position `I[i]`, through which the run of `RowSize(i)` entries of `J` from `I[i]` on
is read; no range test is made and no error is raised. -/
theorem ktable.RowSize_GetRow_unchecked (t : ktable) (i : Int) :
    t.RowSize i = some (t.I (i + 1) - t.I i) ∧
    t.GetRow i = some (t.I i) ∧
    (∀ start n, t.GetRow i = some start → t.RowSize i = some n →
      t.run start n =
        (List.range (t.I (i + 1) - t.I i).toNat).map (fun k => t.J (t.I i + k))) := by
  refine ⟨rfl, rfl, ?_⟩
  intro start n h1 h2
  simp only [ktable.GetRow, ktable.RowSize, Option.some.injEq] at h1 h2
  rw [← h1, ← h2]
  rfl

/-- Witness of the amended C13 on the first row of the example table, which reads
`[10, 11]`. -/
theorem ktable.RowSize_GetRow_unchecked_witness :
    (exampleTable.RowSize 0 = some 2 ∧ exampleTable.GetRow 0 = some 0 ∧
      exampleTable.run 0 2 = [10, 11] ∧ exampleTable.RowSize 1 = some 1 ∧
      exampleTable.run 2 1 = [12]) ∧
    (exampleTable.RowSize 0 = some (exampleTable.I (0 + 1) - exampleTable.I 0) ∧
    exampleTable.GetRow 0 = some (exampleTable.I 0) ∧
    (∀ start n, exampleTable.GetRow 0 = some start → exampleTable.RowSize 0 = some n →
      exampleTable.run start n =
        (List.range (exampleTable.I (0 + 1) - exampleTable.I 0).toNat).map
          (fun k => exampleTable.J (exampleTable.I 0 + k)))) :=
  ⟨by decide, ktable.RowSize_GetRow_unchecked exampleTable 0⟩

/-! ### Constructor of the mixed form -/

theorem length_ArrayPartialSum (l : List Nat) : ∀ sum : Nat,
    (ArrayPartialSum sum l).length = l.length := by
  induction l with
  | nil => intro sum; rfl
  | cons v vs ih => intro sum; simp [ArrayPartialSum, ih]

/-- Entry `i` of the partial sums is the running sum plus the first `i + 1` entries. -/
theorem getElem?_ArrayPartialSum (l : List Nat) : ∀ (sum i : Nat), i < l.length →
    (ArrayPartialSum sum l)[i]? = some (sum + (l.take (i + 1)).sum) := by
  induction l with
  | nil => intro sum i hi; simp at hi
  | cons v vs ih =>
    intro sum i hi
    cases i with
    | zero => simp [ArrayPartialSum]
    | succ i =>
      have hi2 : i < vs.length := by simpa using hi
      simp only [ArrayPartialSum, List.getElem?_cons_succ, List.take_succ_cons,
        List.sum_cons]
      rw [ih (sum + v) i hi2, Nat.add_assoc]

/-- The filling loop of the constructor acts on the two arrays separately. -/
theorem MixedNonlinearForm.fill_offsets_pair (f : List FiniteElementSpace) (l : List Nat)
    (hl : ∀ i ∈ l, i < f.length) : ∀ a b : List Nat,
    l.foldl
        (fun (st : List Nat × List Nat) i =>
          match f[i]? with
          | some fe => (st.1.set (i + 1) fe.GetVSize, st.2.set (i + 1) fe.GetTrueVSize)
          | none => st)
        (a, b) =
      (l.foldl (fun a i => a.set (i + 1) ((f.map (fun fe => fe.GetVSize)).getD i 0)) a,
       l.foldl (fun b i => b.set (i + 1) ((f.map (fun fe => fe.GetTrueVSize)).getD i 0)) b) := by
  induction l with
  | nil => intro a b; rfl
  | cons i l ih =>
    intro a b
    have hi : i < f.length := hl i (List.mem_cons_self _ _)
    simp only [List.foldl_cons]
    rw [List.getElem?_eq_getElem hi]
    simp only []
    rw [ih (fun j hj => hl j (List.mem_cons_of_mem _ hj))]
    simp [List.getD_eq_getElem?_getD, List.getElem?_eq_getElem hi]

/-- After the filling loop an offset array holds 0 followed by the sizes. -/
theorem fill_offsets_eq (sizes : List Nat) (junk : Nat) :
    (List.range sizes.length).foldl (fun a i => a.set (i + 1) (sizes.getD i 0))
        ((ArraySetSize [] (sizes.length + 1) junk).set 0 0) =
      0 :: sizes := by
  apply List.ext_getElem?
  intro g
  rw [getElem?_foldl_set_idx (fun i => i + 1) (fun i => sizes.getD i 0)
    (fun p => sizes.getD (p - 1) 0) sizes.length (fun i _ => by simp)]
  simp only [List.length_set, ArraySetSize_length]
  cases g with
  | zero => simp [ArraySetSize]
  | succ g =>
    by_cases hg : g < sizes.length
    · have hex : ∃ i < sizes.length, i + 1 = g + 1 := ⟨g, hg, rfl⟩
      rw [if_pos ⟨hex, by omega⟩]
      simp [List.getD_eq_getElem?_getD, List.getElem?_eq_getElem hg]
    · have hnex : ¬ ((∃ i < sizes.length, i + 1 = g + 1) ∧ g + 1 < sizes.length + 1) := by
        rintro ⟨_, h⟩
        omega
      rw [if_neg hnex]
      have h1 : ((ArraySetSize [] (sizes.length + 1) junk).set 0 0)[g + 1]? = none := by
        apply List.getElem?_eq_none
        simp only [List.length_set, ArraySetSize_length]
        omega
      rw [h1, List.getElem?_cons_succ, List.getElem?_eq_none (Nat.le_of_not_lt hg)]

/-- The offsets computed by lines 162-173 when `fes` and `f` hold the same `n`
spaces: `n + 1` entries, the partial sums of 0 followed by the sizes. -/
theorem MixedNonlinearForm.constructOffsets_eq (f : List FiniteElementSpace) (junk : Nat) :
    MixedNonlinearForm.constructOffsets f f junk =
      (ArrayPartialSum 0 (0 :: f.map (fun fe => fe.GetVSize)),
       ArrayPartialSum 0 (0 :: f.map (fun fe => fe.GetTrueVSize))) := by
  unfold MixedNonlinearForm.constructOffsets
  simp only []
  rw [MixedNonlinearForm.fill_offsets_pair f _ (fun i hi => List.mem_range.mp hi)]
  have h1 := fill_offsets_eq (f.map (fun fe => fe.GetVSize)) junk
  have h2 := fill_offsets_eq (f.map (fun fe => fe.GetTrueVSize)) junk
  simp only [List.length_map] at h1 h2
  rw [h1, h2]

/-- When `fes` and `f` hold the same spaces, entry `i` of each offset array is the
sum of the sizes of the fields before `i`. -/
theorem MixedNonlinearForm.constructOffsets_prefix_sums (f : List FiniteElementSpace)
    (junk i : Nat) (hi : i ≤ f.length) :
    (MixedNonlinearForm.constructOffsets f f junk).1[i]? =
        some ((f.take i).map (fun fe => fe.GetVSize)).sum ∧
    (MixedNonlinearForm.constructOffsets f f junk).2[i]? =
        some ((f.take i).map (fun fe => fe.GetTrueVSize)).sum := by
  rw [MixedNonlinearForm.constructOffsets_eq]
  constructor
  · rw [getElem?_ArrayPartialSum _ 0 i (by simp; omega)]
    simp [List.map_take]
  · rw [getElem?_ArrayPartialSum _ 0 i (by simp; omega)]
    simp [List.map_take]

/-- When `fes` and `f` hold the same spaces, index `fes.Size() + 1` is past the end
of `block_trueOffsets`: the read of lines 175-176 is out of range whatever line 161
does. -/
theorem MixedNonlinearForm.constructOffsets_read_past_end (f : List FiniteElementSpace)
    (junk : Nat) :
    (MixedNonlinearForm.constructOffsets f f junk).2[f.length + 1]? = none := by
  apply List.getElem?_eq_none
  rw [MixedNonlinearForm.constructOffsets_eq]
  simp [length_ArrayPartialSum]

/-- After line 161 both arrays are empty, whatever spaces were given. -/
theorem MixedNonlinearForm.constructCopy_eq (f : List FiniteElementSpace) :
    MixedNonlinearForm.constructCopy f = ([], []) := rfl

/-- The constructor always reads `block_trueOffsets` one position past its end. -/
theorem MixedNonlinearForm.construct_eq_none {α : Type} (f : List FiniteElementSpace)
    (junk : Nat) :
    (MixedNonlinearForm.construct f junk : Option (MixedNonlinearForm α × BlockLayout)) =
      none := by
  unfold MixedNonlinearForm.construct
  rw [MixedNonlinearForm.constructCopy_eq]
  have hnone := MixedNonlinearForm.constructOffsets_read_past_end [] junk
  simp only [List.length_nil] at hnone ⊢
  simp [hnone]

/-- C14 fails on the code. For the two example spaces (2 and 3 vector DOFs, 2 and 1 true
DOFs) the claim expects the offsets `[0, 2, 5]` and `[0, 2, 3]` and the sizes read at
index 2. In the constructor line 161, `fes.Copy(f)`, copies the empty member `fes`
into `f`, so both arrays are empty afterwards: the offset arrays get one entry each,
`[0]` and `[0]`, and `height` and `width` are read at index `fes.Size() + 1 = 1`,
past the end. -/
theorem MixedNonlinearForm.construct_reads_past_end :
    (exampleSpaces.length = 2 ∧
      exampleSpaces.map (fun fe => (fe.GetVSize, fe.GetTrueVSize)) = [(2, 2), (3, 1)]) ∧
    ((MixedNonlinearForm.constructCopy exampleSpaces).1.length = 0 ∧
      (MixedNonlinearForm.constructCopy exampleSpaces).2.length = 0) ∧
    MixedNonlinearForm.constructOffsets (MixedNonlinearForm.constructCopy exampleSpaces).1
        (MixedNonlinearForm.constructCopy exampleSpaces).2 99 = ([0], [0]) ∧
    MixedNonlinearForm.constructOffsets (MixedNonlinearForm.constructCopy exampleSpaces).1
        (MixedNonlinearForm.constructCopy exampleSpaces).2 99 ≠ ([0, 2, 5], [0, 2, 3]) ∧
    (MixedNonlinearForm.constructOffsets (MixedNonlinearForm.constructCopy exampleSpaces).1
        (MixedNonlinearForm.constructCopy exampleSpaces).2 99).2[
          (MixedNonlinearForm.constructCopy exampleSpaces).1.length + 1]? = none ∧
    ((MixedNonlinearForm.construct exampleSpaces 99 :
      Option (MixedNonlinearForm Int × BlockLayout)).map (fun r => r.2)) = none := by
  decide

end mfem
